import Mathlib

/-!
Verification development for the terramod backend (Python).

Shallow embedding of the core subsystems:
- `app/core/{domain,resource,connection,graph}.py` and the extended graph in
  `app/api/routes/graph.py` (IR export/import `to_ir` / `from_ir`),
- `app/validation/{engine,rules,security_rules,aws_rules}.py`,
- `app/registry/loader.py` (registry lookup),
- `app/deployment/__init__.py` (deployment expander),
- `app/terraform/parser.py` (Terraform decompiler skeleton).

Python dicts are modelled as insertion-ordered association lists
`List (String × α)`; Python's dynamically typed attribute values are modelled
by the inductive `Value`; Python exceptions are modelled with `Except String`.
Free-standing functions keep the snake_case names of the Python methods.
String literals from Python messages are kept up to punctuation.
-/

/-- Python attribute value (`Any`): string, number, boolean, list, dict, None.
Numbers are modelled as integers (the attributes relevant to the validated
rules are ports and counts). -/
inductive Value where
  | str (s : String)
  | num (n : Int)
  | bool (b : Bool)
  | list (l : List Value)
  | map (m : List (String × Value))
  | null
deriving Repr

/-- Python truthiness `bool(v)`. -/
def Value.truthy : Value → Bool
  | .str s => s ≠ ""
  | .num n => n ≠ 0
  | .bool b => b
  | .list l => ¬ l.isEmpty
  | .map m => ¬ m.isEmpty
  | .null => false

/-- Python `v == s` for a string literal `s` (cross-type equality is `False`). -/
def Value.eqStr : Value → String → Bool
  | .str t, s => t = s
  | _, _ => false

/-! ### Association-list dictionaries (Python `dict`, insertion ordered) -/

/-- `k in d` -/
def hasKey (k : String) (l : List (String × α)) : Bool :=
  l.any (fun p => p.1 == k)

/-- `d.get(k)` -/
def lookupKey (k : String) (l : List (String × α)) : Option α :=
  (l.find? (fun p => p.1 == k)).map (·.2)

/-- `d[k] = v` for a key already present (replace value in place). -/
def setKey (k : String) (v : α) (l : List (String × α)) : List (String × α) :=
  l.map (fun p => if p.1 == k then (k, v) else p)

/-- `del d[k]` -/
def eraseKey (k : String) (l : List (String × α)) : List (String × α) :=
  l.filter (fun p => !(p.1 == k))

/-- `d.values()` -/
def dictValues (l : List (String × α)) : List α := l.map (·.2)

/-! ### Core data model (`app/core/domain.py`, `resource.py`, `connection.py`) -/

inductive DomainType where
  | networking | compute | serverless | data | storage
  | messaging | identity | observability | edge
deriving Repr, DecidableEq

/-- `DomainType(...).value` -/
def DomainType.val : DomainType → String
  | .networking => "networking" | .compute => "compute" | .serverless => "serverless"
  | .data => "data" | .storage => "storage" | .messaging => "messaging"
  | .identity => "identity" | .observability => "observability" | .edge => "edge"

/-- `DomainType(s)` — raises `ValueError` on an unknown value. -/
def DomainType.ofVal (s : String) : Except String DomainType :=
  if s = "networking" then .ok .networking
  else if s = "compute" then .ok .compute
  else if s = "serverless" then .ok .serverless
  else if s = "data" then .ok .data
  else if s = "storage" then .ok .storage
  else if s = "messaging" then .ok .messaging
  else if s = "identity" then .ok .identity
  else if s = "observability" then .ok .observability
  else if s = "edge" then .ok .edge
  else .error ("invalid DomainType: " ++ s)

structure Position where
  x : Int
  y : Int
deriving Repr, DecidableEq

structure DomainInput where
  name : String
  type : String
  required : Bool
  description : Option String := none
deriving Repr, DecidableEq

structure DomainOutput where
  name : String
  type : String
  description : Option String := none
deriving Repr, DecidableEq

structure Domain where
  id : String
  name : String
  type : DomainType
  resource_ids : List String := []
  inputs : List DomainInput := []
  outputs : List DomainOutput := []
  position : Position := ⟨0, 0⟩
  width : Int := 200
  height : Int := 150
deriving Repr

structure Resource where
  id : String
  type : String
  domain_id : String
  name : String
  arguments : List (String × Value) := []
  position : Position := ⟨0, 0⟩
deriving Repr

inductive NodeType where
  | resource | domain
deriving Repr, DecidableEq

def NodeType.val : NodeType → String
  | .resource => "resource" | .domain => "domain"

def NodeType.ofVal (s : String) : Except String NodeType :=
  if s = "resource" then .ok .resource
  else if s = "domain" then .ok .domain
  else .error ("invalid NodeType: " ++ s)

inductive ConnectionType where
  | data | dependency | implicit
deriving Repr, DecidableEq

def ConnectionType.val : ConnectionType → String
  | .data => "data" | .dependency => "dependency" | .implicit => "implicit"

def ConnectionType.ofVal (s : String) : Except String ConnectionType :=
  if s = "data" then .ok .data
  else if s = "dependency" then .ok .dependency
  else if s = "implicit" then .ok .implicit
  else .error ("invalid ConnectionType: " ++ s)

structure Connection where
  id : String
  source_id : String
  target_id : String
  source_type : NodeType
  target_type : NodeType
  connection_type : ConnectionType
  output_name : Option String := none
  input_name : Option String := none
deriving Repr, DecidableEq

/-- `InfrastructureGraph`: the IR root, three id-keyed collections. -/
structure Graph where
  domains : List (String × Domain) := []
  resources : List (String × Resource) := []
  connections : List (String × Connection) := []
deriving Repr

def Graph.empty : Graph := {}

/-! ### Graph mutations (`InfrastructureGraph` methods)

Each Python method that can `raise` is embedded as an `Except String Graph`;
the checks happen in source order, before any part of the graph is changed,
so an error leaves the graph unmodified. -/

/-- `add_domain` -/
def add_domain (g : Graph) (d : Domain) : Except String Graph :=
  if hasKey d.id g.domains then
    .error ("Domain " ++ d.id ++ " already exists")
  else
    .ok { g with domains := g.domains ++ [(d.id, d)] }

/-- `get_domain` -/
def get_domain (g : Graph) (domain_id : String) : Option Domain :=
  lookupKey domain_id g.domains

/-- A single field assignment inside an `update_domain` payload.  A payload
key that is not an attribute of `Domain` is skipped by the Python code
(`if hasattr(domain, key)`) and is therefore not represented. -/
inductive DomainUpd where
  | id (v : String)
  | name (v : String)
  | type (v : DomainType)
  | resource_ids (v : List String)
  | inputs (v : List DomainInput)
  | outputs (v : List DomainOutput)
  | position (v : Position)
  | width (v : Int)
  | height (v : Int)
deriving Repr

def applyDomainUpd (d : Domain) : DomainUpd → Domain
  | .id v => { d with id := v }
  | .name v => { d with name := v }
  | .type v => { d with type := v }
  | .resource_ids v => { d with resource_ids := v }
  | .inputs v => { d with inputs := v }
  | .outputs v => { d with outputs := v }
  | .position v => { d with position := v }
  | .width v => { d with width := v }
  | .height v => { d with height := v }

/-- `update_domain` -/
def update_domain (g : Graph) (domain_id : String) (updates : List DomainUpd) :
    Except String Graph :=
  match lookupKey domain_id g.domains with
  | none => .error ("Domain " ++ domain_id ++ " not found")
  | some d => .ok { g with domains := setKey domain_id (updates.foldl applyDomainUpd d) g.domains }

/-- A single field assignment inside an `update_resource` payload. -/
inductive ResourceUpd where
  | id (v : String)
  | type (v : String)
  | domain_id (v : String)
  | name (v : String)
  | arguments (v : List (String × Value))
  | position (v : Position)
deriving Repr

def applyResourceUpd (r : Resource) : ResourceUpd → Resource
  | .id v => { r with id := v }
  | .type v => { r with type := v }
  | .domain_id v => { r with domain_id := v }
  | .name v => { r with name := v }
  | .arguments v => { r with arguments := v }
  | .position v => { r with position := v }

/-- `update_resource` -/
def update_resource (g : Graph) (resource_id : String) (updates : List ResourceUpd) :
    Except String Graph :=
  match lookupKey resource_id g.resources with
  | none => .error ("Resource " ++ resource_id ++ " not found")
  | some r => .ok { g with resources := setKey resource_id (updates.foldl applyResourceUpd r) g.resources }

/-- `add_resource`: duplicate-id check, then referential check on `domain_id`,
then the two mutations (insert into `resources`, append to the owning
domain's `resource_ids`). -/
def add_resource (g : Graph) (r : Resource) : Except String Graph :=
  if hasKey r.id g.resources then
    .error ("Resource " ++ r.id ++ " already exists")
  else if ¬ hasKey r.domain_id g.domains then
    .error ("Domain " ++ r.domain_id ++ " not found")
  else
    .ok { g with
          resources := g.resources ++ [(r.id, r)],
          domains := setKey r.domain_id
            (match lookupKey r.domain_id g.domains with
             | some d => { d with resource_ids := d.resource_ids ++ [r.id] }
             | none => { id := r.domain_id, name := "", type := .compute })
            g.domains }

/-- `get_resource` -/
def get_resource (g : Graph) (resource_id : String) : Option Resource :=
  lookupKey resource_id g.resources

/-- `delete_resource`: silently does nothing when the id is absent; otherwise
removes the first occurrence of the id from the owning domain's list
(Python `list.remove`) and deletes the entry. -/
def delete_resource (g : Graph) (resource_id : String) : Graph :=
  match lookupKey resource_id g.resources with
  | none => g
  | some r =>
    let domains' :=
      match lookupKey r.domain_id g.domains with
      | none => g.domains
      | some d =>
        if resource_id ∈ d.resource_ids then
          setKey r.domain_id { d with resource_ids := d.resource_ids.erase resource_id } g.domains
        else g.domains
    { g with domains := domains', resources := eraseKey resource_id g.resources }

/-- `delete_domain`: silently does nothing when the id is absent; otherwise
deletes each member resource (iterating over a copy of `resource_ids`) and
then the domain itself. -/
def delete_domain (g : Graph) (domain_id : String) : Graph :=
  match lookupKey domain_id g.domains with
  | none => g
  | some d =>
    let g1 := d.resource_ids.foldl delete_resource g
    { g1 with domains := eraseKey domain_id g1.domains }

/-- `add_connection` -/
def add_connection (g : Graph) (c : Connection) : Except String Graph :=
  if hasKey c.id g.connections then
    .error ("Connection " ++ c.id ++ " already exists")
  else
    .ok { g with connections := g.connections ++ [(c.id, c)] }

inductive ConnectionUpd where
  | id (v : String)
  | source_id (v : String)
  | target_id (v : String)
  | source_type (v : NodeType)
  | target_type (v : NodeType)
  | connection_type (v : ConnectionType)
  | output_name (v : Option String)
  | input_name (v : Option String)
deriving Repr

def applyConnectionUpd (c : Connection) : ConnectionUpd → Connection
  | .id v => { c with id := v }
  | .source_id v => { c with source_id := v }
  | .target_id v => { c with target_id := v }
  | .source_type v => { c with source_type := v }
  | .target_type v => { c with target_type := v }
  | .connection_type v => { c with connection_type := v }
  | .output_name v => { c with output_name := v }
  | .input_name v => { c with input_name := v }

/-- `update_connection` -/
def update_connection (g : Graph) (connection_id : String) (updates : List ConnectionUpd) :
    Except String Graph :=
  match lookupKey connection_id g.connections with
  | none => .error ("Connection " ++ connection_id ++ " not found")
  | some c => .ok { g with connections := setKey connection_id (updates.foldl applyConnectionUpd c) g.connections }

/-- `delete_connection`: silently does nothing when the id is absent. -/
def delete_connection (g : Graph) (connection_id : String) : Graph :=
  if hasKey connection_id g.connections then
    { g with connections := eraseKey connection_id g.connections }
  else g

/-! ### Mutation sequences

`Op` is one call to a mutating method.  A call that raises leaves the graph
unchanged (all checks precede all mutations), which `applyOp` reflects by
returning the input graph on `Except.error`. -/

inductive Op where
  | addDomain (d : Domain)
  | addResource (r : Resource)
  | addConnection (c : Connection)
  | updateDomain (id : String) (us : List DomainUpd)
  | updateResource (id : String) (us : List ResourceUpd)
  | updateConnection (id : String) (us : List ConnectionUpd)
  | deleteDomain (id : String)
  | deleteResource (id : String)
  | deleteConnection (id : String)

def applyOp (g : Graph) : Op → Graph
  | .addDomain d => (add_domain g d).toOption.getD g
  | .addResource r => (add_resource g r).toOption.getD g
  | .addConnection c => (add_connection g c).toOption.getD g
  | .updateDomain i us => (update_domain g i us).toOption.getD g
  | .updateResource i us => (update_resource g i us).toOption.getD g
  | .updateConnection i us => (update_connection g i us).toOption.getD g
  | .deleteDomain i => delete_domain g i
  | .deleteResource i => delete_resource g i
  | .deleteConnection i => delete_connection g i

def runOps (ops : List Op) : Graph := ops.foldl applyOp Graph.empty

/-! ### The membership invariant of claim C2 -/

/-- The claim's invariant, for one domain: the domain's `resource_ids` list
holds exactly the ids of the resources whose `domain_id` is the domain's id. -/
def domMembershipInv (g : Graph) (d : Domain) : Prop :=
  (∀ x ∈ d.resource_ids, ∃ p ∈ g.resources, (Prod.snd p).domain_id = d.id ∧ (Prod.snd p).id = x) ∧
  (∀ p ∈ g.resources, (Prod.snd p).domain_id = d.id → (Prod.snd p).id ∈ d.resource_ids)

/-- The claim's invariant for the whole graph. -/
def membershipInv (g : Graph) : Prop :=
  ∀ p ∈ g.domains, domMembershipInv g (Prod.snd p)

instance (g : Graph) (d : Domain) : Decidable (domMembershipInv g d) := by
  unfold domMembershipInv; infer_instance

instance (g : Graph) : Decidable (membershipInv g) := by
  unfold membershipInv domMembershipInv; infer_instance

def d1c : Domain := { id := "d1", name := "a", type := .networking }

def d2c : Domain := { id := "d2", name := "b", type := .compute }

def rAc : Resource := { id := "rA", type := "t", domain_id := "d1", name := "r" }

/-- The counterexample op sequence: create two domains, add a resource to the
first, then move the resource with `update_resource({'domain_id': 'd2'})`.
The generic `setattr` loop in `update_resource` changes `domain_id` without
touching either domain's `resource_ids`, so afterwards `d1.resource_ids`
still holds `rA` while `rA.domain_id` is `d2`. -/
def ceOps : List Op :=
  [.addDomain d1c, .addDomain d2c, .addResource rAc,
   .updateResource "rA" [.domain_id "d2"]]

/-- An `update_domain` payload entry that neither renames the domain id nor
overwrites the membership list. -/
def DomainUpd.safe : DomainUpd → Bool
  | .id _ => false
  | .resource_ids _ => false
  | _ => true

/-- An `update_resource` payload entry that neither renames the resource id
nor moves it to another domain. -/
def ResourceUpd.safe : ResourceUpd → Bool
  | .id _ => false
  | .domain_id _ => false
  | _ => true

/-- Ops that keep the membership bookkeeping in the graph's own hands:
domains are added with an empty member list and updates do not touch the
`id` / `domain_id` / `resource_ids` fields. -/
def Op.safe : Op → Bool
  | .addDomain d => d.resource_ids.isEmpty
  | .updateDomain _ us => us.all DomainUpd.safe
  | .updateResource _ us => us.all ResourceUpd.safe
  | _ => true

/-- A concrete all-safe op sequence used as the witness for the amended C2. -/
def safeOps : List Op :=
  [.addDomain d1c, .addDomain d2c, .addResource rAc,
   .updateResource "rA" [.name "z"], .deleteResource "rA", .deleteDomain "d2"]

/-- The strengthened inductive invariant actually maintained by the safe
operations: id-keyed collections are consistent and duplicate-free, every
resource's domain resolves, member lists are duplicate-free, and the
bidirectional membership property holds. -/
structure GoodGraph (g : Graph) : Prop where
  domKeys : (g.domains.map Prod.fst).Nodup
  resKeys : (g.resources.map Prod.fst).Nodup
  domIds : ∀ p ∈ g.domains, (Prod.snd p).id = Prod.fst p
  resIds : ∀ p ∈ g.resources, (Prod.snd p).id = Prod.fst p
  noOrphans : ∀ p ∈ g.resources, hasKey (Prod.snd p).domain_id g.domains = true
  listsNodup : ∀ p ∈ g.domains, (Prod.snd p).resource_ids.Nodup
  inv : membershipInv g

/-- Concrete fixture graph: one domain, one member resource, one connection. -/
def dW : Domain := { id := "d1", name := "net", type := .networking, resource_ids := ["r1"] }

def rW : Resource := { id := "r1", type := "t", domain_id := "d1", name := "web" }

def cW : Connection :=
  { id := "c1", source_id := "r1", target_id := "d1",
    source_type := .resource, target_type := .domain, connection_type := .data }

def gW : Graph :=
  { domains := [("d1", dW)], resources := [("r1", rW)], connections := [("c1", cW)] }

/-! ### Flat IR exchange format (`to_ir` / `from_ir`, app/api/routes/graph.py)

The IR dictionaries have fixed key sets, so they are embedded as structures
whose fields carry the JSON key names. -/

structure IRResource where
  id : String
  type : String
  domain : String
  name : String
  attributes : List (String × Value)
  position : Position
  depends_on : List String
deriving Repr

structure IRDomainInput where
  name : String
  type : String
  required : Bool
deriving Repr

structure IRDomainOutput where
  name : String
  type : String
deriving Repr

structure IRDomain where
  id : String
  name : String
  type : String
  resources : List String
  inputs : List IRDomainInput
  outputs : List IRDomainOutput
deriving Repr

structure IRConnection where
  id : String
  source : String
  target : String
  source_type : String
  target_type : String
  type : String
  output_name : Option String
  input_name : Option String
deriving Repr

structure IR where
  version : String
  resources : List IRResource
  domains : List IRDomain
  connections : List IRConnection
deriving Repr

/-- `get_dependencies`: sources of resource-typed connections targeting the
given id, in connection insertion order. -/
def get_dependencies (g : Graph) (resource_id : String) : List String :=
  (dictValues g.connections).filterMap (fun c =>
    if c.target_id = resource_id ∧ c.source_type = NodeType.resource then
      some c.source_id
    else none)

def toIRResource (g : Graph) (r : Resource) : IRResource :=
  { id := r.id, type := r.type, domain := r.domain_id, name := r.name,
    attributes := r.arguments, position := r.position,
    depends_on := get_dependencies g r.id }

def toIRDomain (d : Domain) : IRDomain :=
  { id := d.id, name := d.name, type := d.type.val, resources := d.resource_ids,
    inputs := d.inputs.map (fun i => { name := i.name, type := i.type, required := i.required }),
    outputs := d.outputs.map (fun o => { name := o.name, type := o.type }) }

def toIRConnection (c : Connection) : IRConnection :=
  { id := c.id, source := c.source_id, target := c.target_id,
    source_type := c.source_type.val, target_type := c.target_type.val,
    type := c.connection_type.val,
    output_name := c.output_name, input_name := c.input_name }

/-- `to_ir` -/
def to_ir (g : Graph) : IR :=
  { version := "1.0",
    resources := (dictValues g.resources).map (toIRResource g),
    domains := (dictValues g.domains).map toIRDomain,
    connections := (dictValues g.connections).map toIRConnection }

/-- The domain object built by `from_ir` for an imported domain entry:
`resource_ids` starts empty (repopulated by `add_resource`), input/output
descriptions default to `None`, and the presentation fields take the
hard-coded `Position(0,0)`, `width=0`, `height=0`. -/
def fromIRDomain (dd : IRDomain) : Except String Domain :=
  match DomainType.ofVal dd.type with
  | .error e => .error e
  | .ok t =>
    .ok { id := dd.id, name := dd.name, type := t,
          resource_ids := [],
          inputs := dd.inputs.map (fun i =>
            { name := i.name, type := i.type, required := i.required, description := none }),
          outputs := dd.outputs.map (fun o =>
            { name := o.name, type := o.type, description := none }),
          position := ⟨0, 0⟩, width := 0, height := 0 }

def fromIRResource (rd : IRResource) : Resource :=
  { id := rd.id, type := rd.type, domain_id := rd.domain, name := rd.name,
    arguments := rd.attributes, position := rd.position }

def fromIRConnection (cd : IRConnection) : Except String Connection :=
  match NodeType.ofVal cd.source_type with
  | .error e => .error e
  | .ok st =>
    match NodeType.ofVal cd.target_type with
    | .error e => .error e
    | .ok tt =>
      match ConnectionType.ofVal cd.type with
      | .error e => .error e
      | .ok ct =>
        .ok { id := cd.id, source_id := cd.source, target_id := cd.target,
              source_type := st, target_type := tt, connection_type := ct,
              output_name := cd.output_name, input_name := cd.input_name }

/-- A Python `for` loop whose body mutates the graph and may raise: the
first exception aborts the whole import. -/
def foldE {α : Type} (f : Graph → α → Except String Graph) :
    Graph → List α → Except String Graph
  | g, [] => .ok g
  | g, a :: as =>
    match f g a with
    | .error e => .error e
    | .ok g' => foldE f g' as

def fromIRDomainStep (g : Graph) (dd : IRDomain) : Except String Graph :=
  match fromIRDomain dd with
  | .error e => .error e
  | .ok d => add_domain g d

def fromIRResourceStep (g : Graph) (rd : IRResource) : Except String Graph :=
  add_resource g (fromIRResource rd)

def fromIRConnectionStep (g : Graph) (cd : IRConnection) : Except String Graph :=
  match fromIRConnection cd with
  | .error e => .error e
  | .ok c => add_connection g c

/-- `from_ir`: domains first, then resources (validated against the
domains), then connections. -/
def from_ir (ir : IR) : Except String Graph :=
  match foldE fromIRDomainStep Graph.empty ir.domains with
  | .error e => .error e
  | .ok g1 =>
    match foldE fromIRResourceStep g1 ir.resources with
    | .error e => .error e
    | .ok g2 =>
      match foldE fromIRConnectionStep g2 ir.connections with
      | .error e => .error e
      | .ok g3 => .ok g3

/-- What `from_ir ∘ to_ir` reconstructs for a domain before membership is
repopulated: same id/name/type, empty member list, descriptions and
presentation fields dropped. -/
def stripDomain (d : Domain) : Domain :=
  { id := d.id, name := d.name, type := d.type,
    resource_ids := [],
    inputs := d.inputs.map (fun i =>
      { name := i.name, type := i.type, required := i.required, description := none }),
    outputs := d.outputs.map (fun o =>
      { name := o.name, type := o.type, description := none }),
    position := ⟨0, 0⟩, width := 0, height := 0 }

/-- Well-formedness of a graph as maintained by the additive operations:
key/id consistency, duplicate-freeness, resolvable `domain_id`s and the
bidirectional membership property. -/
structure WFGraph (g : Graph) : Prop where
  domKeys : (g.domains.map Prod.fst).Nodup
  resKeys : (g.resources.map Prod.fst).Nodup
  conKeys : (g.connections.map Prod.fst).Nodup
  domIds : ∀ p ∈ g.domains, (Prod.snd p).id = Prod.fst p
  resIds : ∀ p ∈ g.resources, (Prod.snd p).id = Prod.fst p
  conIds : ∀ p ∈ g.connections, (Prod.snd p).id = Prod.fst p
  noOrphans : ∀ p ∈ g.resources, hasKey (Prod.snd p).domain_id g.domains = true
  inv : membershipInv g

/-! ### Validation engine (`app/validation/engine.py`) -/

/-- `ValidationTier`: 0 graph integrity, 1 security, 2 AWS architecture,
3 best practice. -/
inductive ValidationTier where
  | tier0 | tier1 | tier2 | tier3
deriving Repr, DecidableEq

structure ValidationMessage where
  element_id : String
  severity : String
  message : String
  tier : ValidationTier
  rule_id : String
  fix_hint : Option String := none
  override_allowed : Bool := false
deriving Repr, DecidableEq

structure ValidationResults where
  errors : List (String × List String)
  warnings : List (String × List String)
  blocking_errors : List (String × List String)
deriving Repr, DecidableEq

/-- Schema-registry entry (`app/registry/service.py`). -/
structure ServiceDefinition where
  resource_type : String
  domain : DomainType
  category : String := "core"
  required_inputs : List String := []
  optional_inputs : List String := []
  exports : List String := []
  allowed_consumers : List String := []
deriving Repr, DecidableEq

/-- `ServiceRegistry.get_service` over the loaded `services` dict. -/
def get_service (registry : List (String × ServiceDefinition)) (resource_type : String) :
    Option ServiceDefinition :=
  lookupKey resource_type registry

/-- `args.get(k, dflt)` -/
def getArg (args : List (String × Value)) (k : String) (dflt : Value) : Value :=
  (lookupKey k args).getD dflt

/-- `args.get(k)` — `None` when absent. -/
def getArgN (args : List (String × Value)) (k : String) : Value :=
  (lookupKey k args).getD .null

/-! #### Tier 0 rules (`app/validation/rules.py`) -/

def orphan_resource_rule (g : Graph) : List ValidationMessage :=
  g.resources.filterMap (fun p =>
    if hasKey (Prod.snd p).domain_id g.domains then none
    else some
      { element_id := Prod.fst p, severity := "error",
        message := "Resource " ++ (Prod.snd p).name ++
          " belongs to non-existent domain: " ++ (Prod.snd p).domain_id,
        tier := .tier0, rule_id := "graph-orphan-resource",
        fix_hint := some "Assign resource to a valid domain",
        override_allowed := false })

/-- `adjacency` construction of `CircularDependencyRule.validate`: ensure the
source key exists, then append the target. -/
def addAdjEdge (adj : List (String × List String)) (s t : String) :
    List (String × List String) :=
  if hasKey s adj then setKey s (((lookupKey s adj).getD []) ++ [t]) adj
  else adj ++ [(s, [t])]

def adjacencyOf (g : Graph) : List (String × List String) :=
  g.connections.foldl
    (fun adj p => addAdjEdge adj (Prod.snd p).source_id (Prod.snd p).target_id) []

def neighborsOf (adj : List (String × List String)) (node : String) : List String :=
  (lookupKey node adj).getD []

/-- The neighbour loop of `has_cycle`: `next` is the recursive call one fuel
level down; the `visited` set threads through the loop, the recursion stack
is restored on a `False` return (Python removes the node before
returning). -/
def goNeighbors (next : String → List String → List String → Bool × List String)
    (recStack1 : List String) : List String → List String → Bool × List String
  | [], visited => (false, visited)
  | n :: rest, visited =>
    if n ∈ visited then
      if n ∈ recStack1 then (true, visited)
      else goNeighbors next recStack1 rest visited
    else
      match next n visited recStack1 with
      | (true, v) => (true, v)
      | (false, v) => goNeighbors next recStack1 rest v

/-- `has_cycle(node, visited, rec_stack)`.  The fuel bounds the recursion
depth (built via `Nat.rec` so concrete runs compute); Python's own bound is
the interpreter recursion limit, whose `RecursionError` the engine's
per-rule guard turns into an empty finding list, so exhausted fuel likewise
reports no cycle. -/
def hasCycleAux (adj : List (String × List String)) (fuel : Nat) :
    String → List String → List String → Bool × List String :=
  Nat.rec (motive := fun _ => String → List String → List String → Bool × List String)
    (fun _ visited _ => (false, visited))
    (fun _ ih node visited recStack =>
      goNeighbors ih (node :: recStack) (neighborsOf adj node) (node :: visited))
    fuel

/-- Each recursive call visits a previously unvisited node, so the visit
depth is bounded by the total number of node occurrences in the adjacency. -/
def adjSize (adj : List (String × List String)) : Nat :=
  adj.length + (adj.map (fun p => (Prod.snd p).length)).sum + 1

/-- The outer loop of `CircularDependencyRule.validate`: first key whose DFS
finds a back-edge (one finding is enough, then `break`). -/
def find_cycle_start (adj : List (String × List String)) (fuel : Nat) :
    List String → List String → Option String
  | [], _ => none
  | k :: rest, visited =>
    if k ∈ visited then find_cycle_start adj fuel rest visited
    else
      match hasCycleAux adj fuel k visited [] with
      | (true, _) => some k
      | (false, v) => find_cycle_start adj fuel rest v

def circular_dependency_rule (g : Graph) : List ValidationMessage :=
  let adj := adjacencyOf g
  match find_cycle_start adj (adjSize adj) (adj.map Prod.fst) [] with
  | none => []
  | some node =>
    [{ element_id := node, severity := "error",
       message := "Circular dependency detected in infrastructure graph",
       tier := .tier0, rule_id := "graph-circular-dependency",
       fix_hint := some "Remove circular references between resources",
       override_allowed := false }]

/-- Directed edge of the connection adjacency. -/
inductive EdgePath (adj : List (String × List String)) : String → String → Prop where
  | single {s t : String} : t ∈ neighborsOf adj s → EdgePath adj s t
  | cons {s t u : String} : t ∈ neighborsOf adj s → EdgePath adj t u → EdgePath adj s u

/-- The connection adjacency (source→target edges) has no directed cycle. -/
def AcyclicGraph (g : Graph) : Prop := ∀ a, ¬ EdgePath (adjacencyOf g) a a

/-- The DFS recursion stack read bottom-up is an edge chain: each stack
entry has an edge to the one pushed after it. -/
def ChainTo (adj : List (String × List String)) : List String → Prop
  | [] => True
  | [_] => True
  | x :: y :: r => x ∈ neighborsOf adj y ∧ ChainTo adj (y :: r)

/-- `d[k] = v` whether or not the key exists yet. -/
def dictSet (k : String) (v : α) (l : List (String × α)) : List (String × α) :=
  if hasKey k l then setKey k v l else l ++ [(k, v)]

def dup_domain_msgs : List (String × String) → List (String × Domain) → List ValidationMessage
  | _, [] => []
  | seen, p :: rest =>
    (if hasKey (Prod.snd p).name seen then
      [{ element_id := Prod.fst p, severity := "error",
         message := "Duplicate domain name: " ++ (Prod.snd p).name ++
           " conflicts with " ++ ((lookupKey (Prod.snd p).name seen).getD ""),
         tier := .tier0, rule_id := "graph-duplicate-name",
         fix_hint := some "Use unique domain names", override_allowed := false }]
     else []) ++ dup_domain_msgs (dictSet (Prod.snd p).name (Prod.fst p) seen) rest

def dup_res_msgs (g : Graph) (dname : String) :
    List (String × String) → List String → List ValidationMessage
  | _, [] => []
  | seen, rid :: rest =>
    match lookupKey rid g.resources with
    | none => dup_res_msgs g dname seen rest
    | some r =>
      (if hasKey r.name seen then
        [{ element_id := rid, severity := "error",
           message := "Duplicate resource name in domain " ++ dname ++ ": " ++ r.name,
           tier := .tier0, rule_id := "graph-duplicate-name",
           fix_hint := some "Use unique resource names within each domain",
           override_allowed := false }]
       else []) ++ dup_res_msgs g dname (dictSet r.name rid seen) rest

def duplicate_name_rule (g : Graph) : List ValidationMessage :=
  dup_domain_msgs [] g.domains ++
  (g.domains.map (fun p => dup_res_msgs g (Prod.snd p).name [] (Prod.snd p).resource_ids)).flatten

def required_inputs_rule (registry : List (String × ServiceDefinition)) (g : Graph) :
    List ValidationMessage :=
  (g.resources.map (fun p =>
    match get_service registry (Prod.snd p).type with
    | none => []
    | some service =>
      service.required_inputs.filterMap (fun required_input =>
        match lookupKey required_input (Prod.snd p).arguments with
        | none => some
            { element_id := Prod.fst p, severity := "error",
              message := "Missing required input " ++ required_input ++
                " for " ++ (Prod.snd p).type,
              tier := .tier0, rule_id := "graph-required-inputs",
              fix_hint := some ("Provide a value for " ++ required_input),
              override_allowed := false }
        | some v =>
          if v.truthy then none
          else some
            { element_id := Prod.fst p, severity := "error",
              message := "Missing required input " ++ required_input ++
                " for " ++ (Prod.snd p).type,
              tier := .tier0, rule_id := "graph-required-inputs",
              fix_hint := some ("Provide a value for " ++ required_input),
              override_allowed := false }))).flatten

def reference_integrity_rule (g : Graph) : List ValidationMessage :=
  (g.connections.map (fun p =>
    let c := Prod.snd p
    (match c.source_type with
     | .resource =>
       if hasKey c.source_id g.resources then []
       else [{ element_id := c.id, severity := "error",
               message := "Connection references non-existent source resource: " ++ c.source_id,
               tier := .tier0, rule_id := "graph-reference-integrity",
               fix_hint := some "Remove invalid connection or create referenced resource",
               override_allowed := false }]
     | .domain =>
       if hasKey c.source_id g.domains then []
       else [{ element_id := c.id, severity := "error",
               message := "Connection references non-existent source domain: " ++ c.source_id,
               tier := .tier0, rule_id := "graph-reference-integrity",
               fix_hint := some "Remove invalid connection or create referenced domain",
               override_allowed := false }]) ++
    (match c.target_type with
     | .resource =>
       if hasKey c.target_id g.resources then []
       else [{ element_id := c.id, severity := "error",
               message := "Connection references non-existent target resource: " ++ c.target_id,
               tier := .tier0, rule_id := "graph-reference-integrity",
               fix_hint := some "Remove invalid connection or create referenced resource",
               override_allowed := false }]
     | .domain =>
       if hasKey c.target_id g.domains then []
       else [{ element_id := c.id, severity := "error",
               message := "Connection references non-existent target domain: " ++ c.target_id,
               tier := .tier0, rule_id := "graph-reference-integrity",
               fix_hint := some "Remove invalid connection or create referenced domain",
               override_allowed := false }]))).flatten

/-! #### Tier 1 rules (`app/validation/security_rules.py`)

These three rule bodies can raise a Python `TypeError` on oddly typed
attribute values (non-comparable ports, unsized objects, unhashable set
elements, non-iterable `Statement`), so they are embedded as
`Except String`; the engine's per-rule guard recovers an error to zero
findings, as the `try/except` in `validate_graph` does. -/

/-- `'needle' in str(v)`.  Python stringifies the value; for needles without
quote/brace/punctuation characters (the rule uses `AdministratorAccess` and
`aws_iam_role`), substring presence in the repr is presence in a leaf string
or dict key, which this computes recursively. -/
def strHasSub (needle hay : String) : Bool :=
  decide (needle.data <:+: hay.data)

mutual
def containsInStr (needle : String) : Value → Bool
  | .str s => strHasSub needle s
  | .num n => strHasSub needle (toString n)
  | .bool b => strHasSub needle (if b then "True" else "False")
  | .null => strHasSub needle "None"
  | .list l => containsInStrList needle l
  | .map m => containsInStrMap needle m

def containsInStrList (needle : String) : List Value → Bool
  | [] => false
  | v :: r => containsInStr needle v || containsInStrList needle r

def containsInStrMap (needle : String) : List (String × Value) → Bool
  | [] => false
  | p :: r => strHasSub needle p.1 || containsInStr needle p.2 || containsInStrMap needle r
end

/-- `IAMLeastPrivilegeRule._has_wildcard_actions`.  Iterating a non-iterable
`Statement` raises; iterating a string or dict yields no dict elements. -/
def has_wildcard_actions (policy : Value) : Except String Bool :=
  match policy with
  | .map m =>
    match lookupKey "Statement" m with
    | none => .ok false
    | some (.list stmts) => .ok (stmts.any (fun stmt =>
        match stmt with
        | .map sm =>
          match (lookupKey "Action" sm).getD (.list []) with
          | .list al => al.any (fun a => a.eqStr "*" || a.eqStr "*:*")
          | .str s => s == "*" || s == "*:*"
          | _ => false
        | _ => false))
    | some (.str _) => .ok false
    | some (.map _) => .ok false
    | some _ => .error "TypeError: Statement is not iterable"
  | _ => .ok false

/-- `IAMLeastPrivilegeRule._has_wildcard_resources`. -/
def has_wildcard_resources (policy : Value) : Except String Bool :=
  match policy with
  | .map m =>
    match lookupKey "Statement" m with
    | none => .ok false
    | some (.list stmts) => .ok (stmts.any (fun stmt =>
        match stmt with
        | .map sm =>
          match (lookupKey "Resource" sm).getD (.list []) with
          | .list rl => rl.any (fun a => a.eqStr "*")
          | .str s => s == "*"
          | _ => false
        | _ => false))
    | some (.str _) => .ok false
    | some (.map _) => .ok false
    | some _ => .error "TypeError: Statement is not iterable"
  | _ => .ok false

def iam_per_resource (p : String × Resource) : Except String (List ValidationMessage) :=
  if (Prod.snd p).type == "aws_iam_role" then
    let r := Prod.snd p
    let assume_role_policy := getArg r.arguments "assume_role_policy" (.map [])
    match has_wildcard_actions assume_role_policy with
    | .error e => .error e
    | .ok wa =>
      match has_wildcard_resources assume_role_policy with
      | .error e => .error e
      | .ok wr =>
        let m1 : List ValidationMessage :=
          if wa then
            [{ element_id := Prod.fst p, severity := "error",
               message := "IAM role " ++ r.name ++ " has wildcard actions - violates least privilege",
               tier := .tier1, rule_id := "security-iam-least-privilege",
               fix_hint := some "Scope actions to specific AWS services",
               override_allowed := true }]
          else []
        let m2 : List ValidationMessage :=
          if wr then
            [{ element_id := Prod.fst p, severity := "error",
               message := "IAM role " ++ r.name ++ " has wildcard resources - violates least privilege",
               tier := .tier1, rule_id := "security-iam-least-privilege",
               fix_hint := some "Scope resources to specific ARNs",
               override_allowed := true }]
          else []
        let m3 : List ValidationMessage :=
          match getArg r.arguments "managed_policy_arns" (.list []) with
          | .list policies => policies.filterMap (fun pol =>
              if containsInStr "AdministratorAccess" pol then
                some { element_id := Prod.fst p, severity := "error",
                       message := "IAM role " ++ r.name ++ " has AdministratorAccess - forbidden in Terramod",
                       tier := .tier1, rule_id := "security-iam-least-privilege",
                       fix_hint := some "Create custom policy with specific permissions needed",
                       override_allowed := true }
              else none)
          | _ => []
        .ok (m1 ++ m2 ++ m3)
  else .ok []

def exceptConcatMap {α : Type} (f : α → Except String (List ValidationMessage)) :
    List α → Except String (List ValidationMessage)
  | [] => .ok []
  | a :: as =>
    match f a with
    | .error e => .error e
    | .ok ms =>
      match exceptConcatMap f as with
      | .error e => .error e
      | .ok ms' => .ok (ms ++ ms')

def iam_least_privilege_rule (g : Graph) : Except String (List ValidationMessage) :=
  exceptConcatMap iam_per_resource g.resources

/-- `v <= k` for an `int` literal `k`; raises on non-numbers (Python bools
order as 0/1). -/
def cmpValLeInt (v : Value) (k : Int) : Except String Bool :=
  match v with
  | .num n => .ok (n ≤ k)
  | .bool b => .ok ((if b then (1 : Int) else 0) ≤ k)
  | _ => .error "TypeError: unorderable types"

def cmpIntLeVal (k : Int) (v : Value) : Except String Bool :=
  match v with
  | .num n => .ok (k ≤ n)
  | .bool b => .ok (k ≤ (if b then (1 : Int) else 0))
  | _ => .error "TypeError: unorderable types"

/-- Python `s in v`: list membership by equality, dict key membership,
substring for strings; raising otherwise. -/
def strInVal (s : String) (v : Value) : Except String Bool :=
  match v with
  | .list l => .ok (l.any (fun x => x.eqStr s))
  | .map m => .ok (m.any (fun p => p.1 == s))
  | .str t => .ok (strHasSub s t)
  | _ => .error "TypeError: argument is not iterable"

/-- The `for admin_port in self.ADMIN_PORTS` loop for one ingress rule; the
chained comparison and the `in` test evaluate left to right and
short-circuit, so a `TypeError` surfaces only when reached. -/
def admin_port_msgs (resource_id rname : String) (from_port to_port cidr_blocks : Value) :
    List Int → Except String (List ValidationMessage)
  | [] => .ok []
  | admin_port :: rest =>
    if from_port.truthy && to_port.truthy then
      match cmpValLeInt from_port admin_port with
      | .error e => .error e
      | .ok false => admin_port_msgs resource_id rname from_port to_port cidr_blocks rest
      | .ok true =>
        match cmpIntLeVal admin_port to_port with
        | .error e => .error e
        | .ok false => admin_port_msgs resource_id rname from_port to_port cidr_blocks rest
        | .ok true =>
          match strInVal "0.0.0.0/0" cidr_blocks with
          | .error e => .error e
          | .ok false => admin_port_msgs resource_id rname from_port to_port cidr_blocks rest
          | .ok true =>
            let port_name := if admin_port = 22 then "SSH" else "RDP"
            match admin_port_msgs resource_id rname from_port to_port cidr_blocks rest with
            | .error e => .error e
            | .ok ms => .ok
                ({ element_id := resource_id, severity := "error",
                   message := "Security group " ++ rname ++ " has " ++ port_name ++
                     " open to 0.0.0.0/0",
                   tier := .tier1, rule_id := "security-admin-ports-open",
                   fix_hint := some ("Restrict " ++ port_name ++ " access to specific IP ranges"),
                   override_allowed := true } :: ms)
    else admin_port_msgs resource_id rname from_port to_port cidr_blocks rest

def admin_ports_per_resource (p : String × Resource) : Except String (List ValidationMessage) :=
  if (Prod.snd p).type == "aws_security_group" then
    match getArg (Prod.snd p).arguments "ingress" (.list []) with
    | .list ingress_rules =>
      exceptConcatMap (fun ruleVal =>
        match ruleVal with
        | .map rm =>
          admin_port_msgs (Prod.fst p) (Prod.snd p).name
            ((lookupKey "from_port" rm).getD .null)
            ((lookupKey "to_port" rm).getD .null)
            ((lookupKey "cidr_blocks" rm).getD (.list []))
            [22, 3389]
        | _ => .ok []) ingress_rules
    | _ => .ok []
  else .ok []

def admin_ports_rule (g : Graph) : Except String (List ValidationMessage) :=
  exceptConcatMap admin_ports_per_resource g.resources

/-- `len(v)`; raises on unsized values. -/
def pyLen : Value → Except String Int
  | .str s => .ok s.length
  | .list l => .ok l.length
  | .map m => .ok m.length
  | _ => .error "TypeError: object has no len"

/-- `LambdaVPCSecurityRule.validate` for one resource.  Note both findings
carry `override_allowed := False` in the source, although the rule is
registered as Tier 1. -/
def lambda_vpc_security_per_resource (p : String × Resource) :
    Except String (List ValidationMessage) :=
  if (Prod.snd p).type == "aws_lambda_function" then
    let vpc_config := getArgN (Prod.snd p).arguments "vpc_config"
    if ¬ vpc_config.truthy then .ok []
    else
      match vpc_config with
      | .map vc =>
        let sg_ids := (lookupKey "security_group_ids" vc).getD (.list [])
        let msg1 : ValidationMessage :=
          { element_id := Prod.fst p, severity := "error",
            message := "Lambda " ++ (Prod.snd p).name ++ " in VPC must have security_group_ids",
            tier := .tier1, rule_id := "security-lambda-vpc-config",
            fix_hint := some "Add security_group_ids to vpc_config",
            override_allowed := false }
        let step1 : Except String (List ValidationMessage) :=
          if ¬ sg_ids.truthy then .ok [msg1]
          else
            match pyLen sg_ids with
            | .error e => .error e
            | .ok n => .ok (if n = 0 then [msg1] else [])
        match step1 with
        | .error e => .error e
        | .ok ms1 =>
          let subnet_ids := (lookupKey "subnet_ids" vc).getD (.list [])
          let msg2 : ValidationMessage :=
            { element_id := Prod.fst p, severity := "error",
              message := "Lambda " ++ (Prod.snd p).name ++ " in VPC must have subnet_ids",
              tier := .tier1, rule_id := "security-lambda-vpc-config",
              fix_hint := some "Add subnet_ids to vpc_config",
              override_allowed := false }
          let step2 : Except String (List ValidationMessage) :=
            if ¬ subnet_ids.truthy then .ok [msg2]
            else
              match pyLen subnet_ids with
              | .error e => .error e
              | .ok n => .ok (if n = 0 then [msg2] else [])
          match step2 with
          | .error e => .error e
          | .ok ms2 => .ok (ms1 ++ ms2)
      | _ => .ok []
  else .ok []

def lambda_vpc_security_rule (g : Graph) : Except String (List ValidationMessage) :=
  exceptConcatMap lambda_vpc_security_per_resource g.resources

/-! #### Tier 2 rules (`app/validation/aws_rules.py`) -/

def lambda_vpc_rule (g : Graph) : List ValidationMessage :=
  (g.resources.map (fun p =>
    if (Prod.snd p).type == "aws_lambda_function" then
      let vpc_config := getArgN (Prod.snd p).arguments "vpc_config"
      if vpc_config.truthy then
        match vpc_config with
        | .map vc =>
          (if ((lookupKey "subnet_ids" vc).getD .null).truthy then []
           else [{ element_id := Prod.fst p, severity := "error",
                   message := "Lambda " ++ (Prod.snd p).name ++ " VPC config missing subnet_ids",
                   tier := .tier2, rule_id := "aws-lambda-vpc",
                   fix_hint := some "Add subnet_ids to vpc_config",
                   override_allowed := false }]) ++
          (if ((lookupKey "security_group_ids" vc).getD .null).truthy then []
           else [{ element_id := Prod.fst p, severity := "error",
                   message := "Lambda " ++ (Prod.snd p).name ++ " VPC config missing security_group_ids",
                   tier := .tier2, rule_id := "aws-lambda-vpc",
                   fix_hint := some "Add security_group_ids to vpc_config",
                   override_allowed := false }])
        | _ => []
      else []
    else [])).flatten

def ec2_subnet_rule (g : Graph) : List ValidationMessage :=
  g.resources.filterMap (fun p =>
    if (Prod.snd p).type == "aws_instance" then
      if (getArgN (Prod.snd p).arguments "subnet_id").truthy then none
      else some
        { element_id := Prod.fst p, severity := "error",
          message := "EC2 instance " ++ (Prod.snd p).name ++ " must specify subnet_id",
          tier := .tier2, rule_id := "aws-ec2-subnet",
          fix_hint := some "Add subnet_id argument to place instance in a subnet",
          override_allowed := false }
    else none)

def lambda_iam_role_rule (g : Graph) : List ValidationMessage :=
  g.resources.filterMap (fun p =>
    if (Prod.snd p).type == "aws_lambda_function" then
      if (getArgN (Prod.snd p).arguments "role").truthy then none
      else some
        { element_id := Prod.fst p, severity := "error",
          message := "Lambda function " ++ (Prod.snd p).name ++ " must have IAM role",
          tier := .tier2, rule_id := "aws-lambda-iam-role",
          fix_hint := some "Add role argument with IAM role ARN",
          override_allowed := false }
    else none)

/-- The reference-collection loop of `IAMRoleUsageRule.validate`.  Adding an
unhashable value (list/dict) to the Python set raises.  `role or iam_role_arn`
takes the first truthy value. -/
def roleRefsAux (iam_roles : List (String × Resource)) :
    List (String × Resource) → List Value → Except String (List Value)
  | [], refs => .ok refs
  | p :: rest, refs =>
    let a := getArgN (Prod.snd p).arguments "role"
    let role_ref := if a.truthy then a else getArgN (Prod.snd p).arguments "iam_role_arn"
    if role_ref.truthy then
      if containsInStr "aws_iam_role" role_ref then
        match role_ref with
        | .list _ => .error "TypeError: unhashable type"
        | .map _ => .error "TypeError: unhashable type"
        | _ => roleRefsAux iam_roles rest (refs ++ [role_ref])
      else
        roleRefsAux iam_roles rest
          (refs ++ iam_roles.filterMap (fun q =>
            if containsInStr (Prod.snd q).name role_ref then some (.str (Prod.fst q)) else none))
    else roleRefsAux iam_roles rest refs

def iam_role_usage_rule (g : Graph) : Except String (List ValidationMessage) :=
  let iam_roles := g.resources.filter (fun p => (Prod.snd p).type == "aws_iam_role")
  match roleRefsAux iam_roles g.resources [] with
  | .error e => .error e
  | .ok referenced_roles => .ok (iam_roles.filterMap (fun q =>
      if referenced_roles.any (fun v => v.eqStr (Prod.fst q)) then none
      else some
        { element_id := Prod.fst q, severity := "warning",
          message := "IAM role " ++ (Prod.snd q).name ++ " is not referenced by any resource",
          tier := .tier2, rule_id := "aws-iam-role-usage",
          fix_hint := some "Either use this role or remove it",
          override_allowed := false }))

/-! #### The engine (`ValidationEngine`) -/

/-- The `try/except` around one rule: an exception is logged and the rule
contributes no findings for the run. -/
def ruleRecover (r : Except String (List ValidationMessage)) : List ValidationMessage :=
  match r with
  | .error _ => []
  | .ok ms => ms

/-- The registered default rules, in `_register_default_rules` order. -/
def default_rule_messages (registry : List (String × ServiceDefinition)) (g : Graph) :
    List (List ValidationMessage) :=
  [ orphan_resource_rule g,
    circular_dependency_rule g,
    duplicate_name_rule g,
    required_inputs_rule registry g,
    reference_integrity_rule g,
    ruleRecover (iam_least_privilege_rule g),
    ruleRecover (admin_ports_rule g),
    ruleRecover (lambda_vpc_security_rule g),
    lambda_vpc_rule g,
    ec2_subnet_rule g,
    lambda_iam_role_rule g,
    ruleRecover (iam_role_usage_rule g) ]

def all_messages (registry : List (String × ServiceDefinition)) (g : Graph) :
    List ValidationMessage :=
  (default_rule_messages registry g).flatten

/-- `ValidationEngine.add_override` -/
def add_override (overrides : List (String × List String)) (element_id rule_id : String) :
    List (String × List String) :=
  let o1 := if hasKey element_id overrides then overrides else overrides ++ [(element_id, [])]
  let cur := (lookupKey element_id o1).getD []
  if rule_id ∈ cur then o1 else setKey element_id (cur ++ [rule_id]) o1

/-- `ValidationEngine.is_overridden` -/
def is_overridden (overrides : List (String × List String)) (element_id rule_id : String) :
    Bool :=
  hasKey element_id overrides && ((lookupKey element_id overrides).getD []).contains rule_id

/-- `errors[eid].append(text)`, creating the entry first. -/
def appendAt (m : List (String × List String)) (k s : String) : List (String × List String) :=
  if hasKey k m then setKey k (((lookupKey k m).getD []) ++ [s]) m else m ++ [(k, [s])]

/-- The per-message body of the `validate_graph` loop. -/
def processMessage (overrides : List (String × List String)) (acc : ValidationResults)
    (msg : ValidationMessage) : ValidationResults :=
  if msg.override_allowed && is_overridden overrides msg.element_id msg.rule_id then acc
  else if msg.severity == "error" then
    let error_text := msg.message ++
      (match msg.fix_hint with | some h => " (Fix: " ++ h ++ ")" | none => "")
    { acc with
      errors := appendAt acc.errors msg.element_id error_text,
      blocking_errors :=
        if msg.tier = .tier0 ∨ msg.tier = .tier1 ∨ msg.tier = .tier2 then
          appendAt acc.blocking_errors msg.element_id error_text
        else acc.blocking_errors }
  else
    { acc with warnings := appendAt acc.warnings msg.element_id msg.message }

def emptyResults : ValidationResults := { errors := [], warnings := [], blocking_errors := [] }

/-- `ValidationEngine.validate_graph`: run every registered rule (recovering
exceptions), classify each finding unless overridden. -/
def validate_graph (registry : List (String × ServiceDefinition))
    (overrides : List (String × List String)) (g : Graph) : ValidationResults :=
  (default_rule_messages registry g).foldl
    (fun acc msgs => msgs.foldl (processMessage overrides) acc) emptyResults

/-! ### Concrete validation fixtures -/

def dT (i : String) (n : String) : Domain := { id := i, name := n, type := .compute }

def rT (i : String) (n : String) (ty : String) (args : List (String × Value)) : Resource :=
  { id := i, type := ty, domain_id := "d1", name := n, arguments := args }

def cT (i s t : String) : Connection :=
  { id := i, source_id := s, target_id := t, source_type := .resource, target_type := .resource,
    connection_type := .dependency }

/-- Three resources with the connection cycle A→B→C→A. -/
def g3 : Graph :=
  { domains := [("d1", { dT "d1" "dom" with resource_ids := ["A", "B", "C"] })],
    resources := [("A", rT "A" "a" "t" []), ("B", rT "B" "b" "t" []), ("C", rT "C" "c" "t" [])],
    connections := [("c1", cT "c1" "A" "B"), ("c2", cT "c2" "B" "C"), ("c3", cT "c3" "C" "A")] }

/-- A Lambda attached to a VPC with neither security groups nor subnets. -/
def gL : Graph :=
  { domains := [("d1", dT "d1" "dom")],
    resources := [("lam1", rT "lam1" "fn" "aws_lambda_function"
      [("vpc_config", .map [("subnet_ids", .list [])])])],
    connections := [] }

/-- A security group with SSH open to the unrestricted CIDR. -/
def gS : Graph :=
  { domains := [("d1", dT "d1" "dom")],
    resources := [("sg1", rT "sg1" "sg" "aws_security_group"
      [("ingress", .list [.map [("from_port", .num 22), ("to_port", .num 22),
        ("cidr_blocks", .list [.str "0.0.0.0/0"])]])])],
    connections := [] }

/-- An IAM role with wildcard actions, a wildcard resource ARN and an
administrator-equivalent managed policy. -/
def gI : Graph :=
  { domains := [("d1", dT "d1" "dom")],
    resources := [("role1", rT "role1" "adminrole" "aws_iam_role"
      [("assume_role_policy", .map [("Statement", .list
          [.map [("Action", .list [.str "*"]), ("Resource", .str "*")]])]),
       ("managed_policy_arns", .list [.str "arn:aws:iam::aws:policy/AdministratorAccess"])])],
    connections := [] }

/-- Registry fixture: type `t` requires `vpc_id`. -/
def svc6 : ServiceDefinition :=
  { resource_type := "t", domain := .compute, required_inputs := ["vpc_id"] }

def regW : List (String × ServiceDefinition) := [("t", svc6)]

def r6 : Resource := rT "web1" "web" "t" []

def g6 : Graph :=
  { domains := [("d1", dT "d1" "dom")], resources := [("web1", r6)], connections := [] }

/-! ### Deployment expansion (`app/deployment/__init__.py`) -/

/-- `DeploymentStrategy` enum (lines 12-16). -/
inductive DeploymentStrategy where
  | single | per_az | multi_az | regional
deriving Repr, DecidableEq

/-- `DeploymentAlias` dataclass (lines 18-26). -/
structure DeploymentAlias where
  resource_id : String
  resource_type : String
  base_name : String
  alias_type : String
  alias_value : String
  alias_index : Nat
deriving Repr, DecidableEq

/-- Python `s.split(sep)` for a one-character separator, on the character
list; the result always has at least one (possibly empty) piece. -/
def splitOnChar (c : Char) : List Char → List (List Char)
  | [] => [[]]
  | x :: xs =>
    let r := splitOnChar c xs
    if x = c then [] :: r
    else
      match r with
      | [] => [[x]]
      | h :: t => (x :: h) :: t

def pySplit (c : Char) (s : String) : List String :=
  (splitOnChar c s.data).map String.mk

/-- `DeploymentAlias.get_terraform_name` (lines 28-37).  `split('-')[-1]` is
the last piece of the split; `replace('-', '_')` with one-character pattern
and replacement is character-wise. -/
def DeploymentAlias.get_terraform_name (a : DeploymentAlias) : String :=
  if a.alias_type = "az" then
    a.base_name ++ "_" ++ (pySplit '-' a.alias_value).getLastD ""
  else if a.alias_type = "region" then
    a.base_name ++ "_" ++
      String.mk (a.alias_value.data.map (fun ch => if ch = '-' then '_' else ch))
  else
    a.base_name

/-- `DeploymentConfig` dataclass (lines 55-60).  `replica_regions` holds the
extracted `r["region"]` strings (the only field `expand_resource` reads from
a replica entry). -/
structure DeploymentConfig where
  primary_region : String
  availability_zones : List String
  replica_regions : Option (List String)
deriving Repr, DecidableEq

/-- `DeploymentExpander.expand_resource` (lines 68-136).  The strategy enum
is closed, so the trailing `raise ValueError` branch is unreachable; the
`arguments` parameter is unused, as in the source. -/
def expand_resource (config : DeploymentConfig)
    (resource_id resource_type base_name : String)
    (strategy : DeploymentStrategy) (arguments : List (String × Value)) :
    List DeploymentAlias :=
  let _ := arguments
  match strategy with
  | .single =>
    [{ resource_id := resource_id, resource_type := resource_type,
       base_name := base_name, alias_type := "none", alias_value := "",
       alias_index := 0 }]
  | .per_az =>
    (config.availability_zones.enum).map (fun p =>
      { resource_id := resource_id ++ "_" ++ toString p.1,
        resource_type := resource_type, base_name := base_name,
        alias_type := "az", alias_value := p.2, alias_index := p.1 })
  | .multi_az =>
    [{ resource_id := resource_id, resource_type := resource_type,
       base_name := base_name, alias_type := "multi-az",
       alias_value := String.intercalate "," config.availability_zones,
       alias_index := 0 }]
  | .regional =>
    let regions : List String :=
      match config.replica_regions with
      | some rs =>
        if rs.isEmpty then [config.primary_region]
        else config.primary_region :: rs
      | none => [config.primary_region]
    regions.enum.map (fun p =>
      { resource_id := resource_id ++ "_" ++ toString p.1,
        resource_type := resource_type, base_name := base_name,
        alias_type := "region", alias_value := p.2, alias_index := p.1 })

/-- Decimal digits to a number; `none` at the first non-digit. -/
def digitsAux : List Char → Nat → Option Nat
  | [], acc => some acc
  | ch :: cs, acc =>
    if ch.isDigit then digitsAux cs (acc * 10 + (ch.toNat - 48)) else none

/-- Python `int(s)` on a plain decimal literal with an optional leading
minus sign — the shapes produced by dotted-quad octets; `none` models the
`ValueError` on anything else. -/
def pyInt (s : String) : Option Int :=
  match s.data with
  | [] => none
  | ['-'] => none
  | '-' :: cs => (digitsAux cs 0).map (fun n => -(n : Int))
  | cs => (digitsAux cs 0).map (fun n => (n : Int))

/-- `l[i] = v` on a Python list (the index is in range at the use site). -/
def setIdx : List α → Nat → α → List α
  | [], _, _ => []
  | _ :: xs, 0, v => v :: xs
  | x :: xs, n + 1, v => x :: setIdx xs n v

/-- The `for idx, az in enumerate(...)` loop of `generate_cidr_calculations`
(lines 222-225): `octets[2]` may raise `IndexError` and `int(octets[2])`
may raise `ValueError`, aborting the whole call. -/
def cidrLoop (octets : List String) :
    List (String × String) → List (Nat × String) →
      Except String (List (String × String))
  | cidrs, [] => .ok cidrs
  | cidrs, (idx, az) :: rest =>
    match octets.get? 2 with
    | none => .error "IndexError"
    | some o2 =>
      match pyInt o2 with
      | none => .error "ValueError"
      | some n =>
        cidrLoop octets
          (dictSet az
            (String.intercalate "."
              (setIdx octets 2 (toString (n + (idx : Int)))) ++ "/24")
            cidrs) rest

/-- `DeploymentExpander.generate_cidr_calculations` (lines 207-227); the
`resource_name` parameter is unused, as in the source. -/
def generate_cidr_calculations (config : DeploymentConfig)
    (vpc_cidr resource_name : String) :
    Except String (List (String × String)) :=
  let _ := resource_name
  let base_ip := (pySplit '/' vpc_cidr).headD ""
  let octets := pySplit '.' base_ip
  cidrLoop octets [] config.availability_zones.enum

/-! ### Terraform import (`app/terraform/parser.py`) -/

/-- A pre-parsed HCL file, as produced by `hcl2.loads`: the value of the
top-level `resource` key when present — a list of blocks, each a dict
`resource_type -> (resource_name -> config)`. -/
structure ParsedHcl where
  resource : Option (List (List (String × List (String × List (String × Value)))))
deriving Repr

/-- `TerraformParser.extract_resources` (lines 56-75); the `source_file`
parameter is unused, as in the source. -/
def extract_resources
    (resource_data : List (List (String × List (String × List (String × Value)))))
    (source_file : String) : List Resource :=
  let _ := source_file
  (resource_data.map (fun resource_block =>
    (resource_block.map (fun tp =>
      tp.2.map (fun np =>
        ({ id := tp.1 ++ "." ++ np.1, type := tp.1, domain_id := "",
           name := np.1, arguments := np.2, position := ⟨0, 0⟩ } : Resource)))).flatten)).flatten

/-- `TerraformParser.assign_domain` (lines 77-104): registry lookup, then
the substring-based fallback chain. -/
def assign_domain (registry : List (String × ServiceDefinition))
    (resource_type : String) : DomainType :=
  match get_service registry resource_type with
  | some service => service.domain
  | none =>
    if strHasSub "vpc" resource_type || strHasSub "subnet" resource_type ||
        strHasSub "gateway" resource_type then .networking
    else if strHasSub "instance" resource_type || strHasSub "asg" resource_type then
      .compute
    else if strHasSub "lambda" resource_type then .serverless
    else if strHasSub "db" resource_type || strHasSub "dynamodb" resource_type then
      .data
    else if strHasSub "s3" resource_type then .storage
    else if strHasSub "sqs" resource_type || strHasSub "sns" resource_type then
      .messaging
    else if strHasSub "iam" resource_type then .identity
    else if strHasSub "cloudwatch" resource_type then .observability
    else if strHasSub "lb" resource_type || strHasSub "alb" resource_type then .edge
    else .compute

/-- The per-resource body of the `parse_project` file loop (lines 29-46):
domain assignment, on-demand domain creation, then `add_resource`.  The
graph is mutated in place in Python, so a raise propagates the graph state
at the raise point (`Except.error` carries it); mutations already applied
stay. -/
def processResource (registry : List (String × ServiceDefinition))
    (g : Graph) (resource : Resource) : Except Graph Graph :=
  let domain_type := assign_domain registry resource.type
  let domain_id := "domain_" ++ domain_type.val
  let step1 : Except Graph Graph :=
    match get_domain g domain_id with
    | some _ => .ok g
    | none =>
      match add_domain g { id := domain_id, name := domain_type.val,
                           type := domain_type, position := ⟨0, 0⟩ } with
      | .ok g' => .ok g'
      | .error _ => .error g
  match step1 with
  | .error gerr => .error gerr
  | .ok g1 =>
    match add_resource g1 { resource with domain_id := domain_id } with
    | .ok g2 => .ok g2
    | .error _ => .error g1

/-- The graph held by either side of an `Except Graph Graph`. -/
def exGraph : Except Graph Graph → Graph
  | .ok g => g
  | .error g => g

/-- The `for resource in resources` loop under the file-level `try`
(lines 23-49): the first raise aborts the rest of the file but keeps the
mutations made so far. -/
def foldRecover (f : Graph → α → Except Graph Graph) : Graph → List α → Graph
  | g, [] => g
  | g, a :: as =>
    match f g a with
    | .error gerr => gerr
    | .ok g' => foldRecover f g' as

/-- One iteration of the `for filename, content in files.items()` loop
(lines 22-49): `none` stands for `hcl2.loads` raising (caught and logged);
a file without a `resource` key contributes nothing. -/
def processFile (registry : List (String × ServiceDefinition))
    (g : Graph) (filename : String) (content : Option ParsedHcl) : Graph :=
  match content with
  | none => g
  | some parsed =>
    match parsed.resource with
    | none => g
    | some resource_data =>
      foldRecover (processResource registry) g
        (extract_resources resource_data filename)

/-- `TerraformParser.reconstruct_connections` (lines 106-111): the body is
`pass`, so the graph comes back untouched. -/
def reconstruct_connections (g : Graph) : Graph :=
  g

/-- `TerraformParser.parse_project` (lines 17-54). -/
def parse_project (registry : List (String × ServiceDefinition))
    (files : List (String × Option ParsedHcl)) : Graph :=
  let graph := Graph.empty
  let graph := files.foldl (fun g p => processFile registry g p.1 p.2) graph
  reconstruct_connections graph

/-- A pre-parsed two-resource project: `aws_vpc.main`, and `aws_instance.web`
whose `subnet_id` interpolates `aws_vpc.main.id` — a reference a
connection-reconstruction pass should detect. -/
def files9 : List (String × Option ParsedHcl) :=
  [("main.tf", some ⟨some
      [[("aws_vpc", [("main", [("cidr_block", .str "10.0.0.0/16")])]),
        ("aws_instance", [("web", [("subnet_id", .str "$\x7baws_vpc.main.id\x7d")])])]]⟩)]

/-! ### Association-list lemmas -/

theorem hasKey_eq_false_iff {α : Type} {k : String} {l : List (String × α)} :
    hasKey k l = false ↔ lookupKey k l = none := by
  induction l with
  | nil => simp [hasKey, lookupKey]
  | cons p t ih =>
    cases hpk : (p.1 == k) with
    | true => simp [hasKey, lookupKey, List.find?_cons_of_pos, hpk]
    | false => simp only [hasKey, lookupKey, List.any_cons, hpk, Bool.false_or,
        List.find?_cons_of_neg, Bool.not_eq_true] at ih ⊢; exact ih

theorem hasKey_eq_true_iff {α : Type} {k : String} {l : List (String × α)} :
    hasKey k l = true ↔ ∃ v, lookupKey k l = some v := by
  rcases h : hasKey k l with _ | _
  · simp only [hasKey_eq_false_iff] at h
    simp [h]
  · constructor
    · intro _
      rcases hl : lookupKey k l with _ | v
      · rw [← hasKey_eq_false_iff] at hl
        simp [h] at hl
      · exact ⟨v, rfl⟩
    · intro _; rfl

theorem eraseKey_of_hasKey_false {α : Type} {k : String} {l : List (String × α)}
    (h : hasKey k l = false) : eraseKey k l = l := by
  apply List.filter_eq_self.mpr
  intro p hp
  simp [hasKey] at h
  simp [h p.1 p.2 hp]

theorem hasKey_iff_mem_keys {α : Type} {k : String} {l : List (String × α)} :
    hasKey k l = true ↔ k ∈ l.map Prod.fst := by
  simp only [hasKey, List.any_eq_true, List.mem_map, beq_iff_eq]

theorem keys_setKey {α : Type} (k : String) (v : α) (l : List (String × α)) :
    (setKey k v l).map Prod.fst = l.map Prod.fst := by
  induction l with
  | nil => rfl
  | cons p t ih =>
    simp only [setKey, List.map_cons] at ih ⊢
    by_cases h : p.1 == k
    · simp [h, beq_iff_eq.mp h, ih]
      intro a b _
      by_cases hak : a = k <;> simp [hak]
    · simp [h, ih]
      intro a b _
      by_cases hak : a = k <;> simp [hak]

theorem hasKey_setKey {α : Type} {k' k : String} {v : α} {l : List (String × α)} :
    hasKey k' (setKey k v l) = hasKey k' l := by
  rw [Bool.eq_iff_iff, hasKey_iff_mem_keys, hasKey_iff_mem_keys, keys_setKey]

theorem mem_setKey {α : Type} {k : String} {v : α} {l : List (String × α)} {p : String × α} :
    p ∈ setKey k v l ↔ ∃ q ∈ l, p = (if q.1 == k then (k, v) else q) := by
  simp only [setKey, List.mem_map]
  constructor
  · rintro ⟨q, hq, rfl⟩; exact ⟨q, hq, rfl⟩
  · rintro ⟨q, hq, rfl⟩; exact ⟨q, hq, rfl⟩

theorem mem_eraseKey {α : Type} {k : String} {l : List (String × α)} {p : String × α} :
    p ∈ eraseKey k l ↔ p ∈ l ∧ p.1 ≠ k := by
  simp [eraseKey, List.mem_filter]

theorem hasKey_eraseKey_of_ne {α : Type} {k' k : String} {l : List (String × α)}
    (hne : k' ≠ k) (hk : hasKey k' l = true) : hasKey k' (eraseKey k l) = true := by
  rw [hasKey_iff_mem_keys] at hk ⊢
  obtain ⟨p, hp, hfst⟩ := List.mem_map.mp hk
  exact List.mem_map.mpr ⟨p, mem_eraseKey.mpr ⟨hp, by rw [hfst]; exact hne⟩, hfst⟩

theorem mem_keyUnique {α : Type} {k : String} {a b : α} {l : List (String × α)}
    (hnd : (l.map Prod.fst).Nodup) (h1 : (k, a) ∈ l) (h2 : (k, b) ∈ l) : a = b := by
  induction l with
  | nil => cases h1
  | cons p t ih =>
    rcases List.mem_cons.mp h1 with h1 | h1 <;> rcases List.mem_cons.mp h2 with h2 | h2
    · rw [← h1] at h2; exact congrArg Prod.snd h2.symm
    · exfalso
      have : p.1 ∈ t.map Prod.fst := List.mem_map.mpr ⟨(k, b), h2, by rw [← h1]⟩
      exact (List.nodup_cons.mp hnd).1 this
    · exfalso
      have : p.1 ∈ t.map Prod.fst := List.mem_map.mpr ⟨(k, a), h1, by rw [← h2]⟩
      exact (List.nodup_cons.mp hnd).1 this
    · exact ih (List.nodup_cons.mp hnd).2 h1 h2

theorem lookupKey_some_hasKey {α : Type} {k : String} {l : List (String × α)} {v : α}
    (h : lookupKey k l = some v) : hasKey k l = true :=
  hasKey_eq_true_iff.mpr ⟨v, h⟩

theorem hasKey_append {α : Type} {k : String} {l l' : List (String × α)} :
    hasKey k (l ++ l') = (hasKey k l || hasKey k l') := by
  simp [hasKey, List.any_append]

theorem mem_hasKey {α : Type} {l : List (String × α)} {p : String × α}
    (h : p ∈ l) : hasKey p.1 l = true :=
  hasKey_iff_mem_keys.mpr (List.mem_map.mpr ⟨p, h, rfl⟩)

/-! ### GoodGraph preservation by the (safe) mutating operations -/

theorem goodEmpty : GoodGraph Graph.empty := by
  refine ⟨?_, ?_, ?_, ?_, ?_, ?_, ?_⟩ <;> simp [Graph.empty, membershipInv]

theorem good_add_domain {g : Graph} {d : Domain} (hg : GoodGraph g)
    (hd : d.resource_ids = []) : GoodGraph (applyOp g (Op.addDomain d)) := by
  unfold applyOp add_domain
  by_cases h : hasKey d.id g.domains
  · simpa [h, Except.toOption] using hg
  · simp only [h, Bool.false_eq_true, if_neg, if_false, Except.toOption, Option.getD_some]
    have hd_not : d.id ∉ g.domains.map Prod.fst := fun hmem => h (hasKey_iff_mem_keys.mpr hmem)
    refine ⟨?_, hg.resKeys, ?_, hg.resIds, ?_, ?_, ?_⟩
    · rw [List.map_append, List.nodup_append]
      exact ⟨hg.domKeys, by simp, by
        intro a ha hb
        simp at hb
        subst hb
        exact hd_not ha⟩
    · intro p hp
      rcases List.mem_append.mp hp with hp | hp
      · exact hg.domIds p hp
      · simp at hp; subst hp; rfl
    · intro p hp
      rw [hasKey_append]
      simp [hg.noOrphans p hp]
    · intro p hp
      rcases List.mem_append.mp hp with hp | hp
      · exact hg.listsNodup p hp
      · simp at hp; subst hp; simp [hd]
    · intro p hp
      rcases List.mem_append.mp hp with hp | hp
      · obtain ⟨hfwd, hbwd⟩ := hg.inv p hp
        exact ⟨fun x hx => hfwd x hx, fun q hq => hbwd q hq⟩
      · simp at hp; subst hp
        constructor
        · intro x hx; rw [hd] at hx; cases hx
        · intro q hq hdom
          exfalso
          have := hg.noOrphans q hq
          rw [hdom] at this
          exact h this

theorem lookupKey_mem {α : Type} {k : String} {l : List (String × α)} {v : α}
    (h : lookupKey k l = some v) : (k, v) ∈ l := by
  simp only [lookupKey, Option.map_eq_some'] at h
  obtain ⟨p, hp, hv⟩ := h
  have hmem := List.mem_of_find?_eq_some hp
  have hk := List.find?_some hp
  simp at hk
  rcases p with ⟨a, b⟩
  simp at hv
  subst hv; subst hk
  exact hmem

/-! ### Claim C7 — add_resource rejects a dangling domain reference -/

/-- C7.  For every graph `G` and resource `r` whose `domain_id` is not a
present domain id, `add_resource(G, r)` raises (both the duplicate-id branch
and the missing-domain branch are checks made before any mutation), so the
caller's graph is unchanged: `applyOp` on the raising call returns `G`
itself — no orphan is inserted and no partial update happens. -/
theorem c7_add_resource_dangling_domain (g : Graph) (r : Resource)
    (h : hasKey r.domain_id g.domains = false) :
    (∃ e, add_resource g r = Except.error e) ∧ applyOp g (Op.addResource r) = g := by
  by_cases h1 : hasKey r.id g.resources
  · refine ⟨⟨"Resource " ++ r.id ++ " already exists", ?_⟩, ?_⟩ <;>
      simp [add_resource, applyOp, Except.toOption, h1]
  · refine ⟨⟨"Domain " ++ r.domain_id ++ " not found", ?_⟩, ?_⟩ <;>
      simp [add_resource, applyOp, Except.toOption, h1, h]

/-- Witness for C7 at a concrete graph and resource. -/
theorem c7_witness :
    (∃ e, add_resource gW { id := "r9", type := "t", domain_id := "nope", name := "x" } = Except.error e) ∧
    applyOp gW (Op.addResource { id := "r9", type := "t", domain_id := "nope", name := "x" }) = gW :=
  c7_add_resource_dangling_domain gW { id := "r9", type := "t", domain_id := "nope", name := "x" }
    (by decide)

/-! ### Claim C10 — deleting a missing element is a silent no-op -/

/-- C10.  `delete_resource`, `delete_domain` and `delete_connection` on an
absent id return the graph unchanged (the Python bodies are guarded by a
membership test and have no raise path), whereas the update operations raise
on a missing id and the add operations raise on a duplicate id. -/
theorem c10_delete_missing_is_noop :
    (∀ (g : Graph) (x : String), hasKey x g.resources = false → delete_resource g x = g) ∧
    (∀ (g : Graph) (x : String), hasKey x g.domains = false → delete_domain g x = g) ∧
    (∀ (g : Graph) (x : String), hasKey x g.connections = false → delete_connection g x = g) ∧
    (∀ (g : Graph) (x : String) (us : List ResourceUpd),
      hasKey x g.resources = false → ∃ e, update_resource g x us = Except.error e) ∧
    (∀ (g : Graph) (x : String) (us : List DomainUpd),
      hasKey x g.domains = false → ∃ e, update_domain g x us = Except.error e) ∧
    (∀ (g : Graph) (x : String) (us : List ConnectionUpd),
      hasKey x g.connections = false → ∃ e, update_connection g x us = Except.error e) ∧
    (∀ (g : Graph) (d : Domain), hasKey d.id g.domains = true → ∃ e, add_domain g d = Except.error e) ∧
    (∀ (g : Graph) (r : Resource), hasKey r.id g.resources = true → ∃ e, add_resource g r = Except.error e) ∧
    (∀ (g : Graph) (c : Connection), hasKey c.id g.connections = true → ∃ e, add_connection g c = Except.error e) := by
  refine ⟨?_, ?_, ?_, ?_, ?_, ?_, ?_, ?_, ?_⟩
  · intro g x h
    rw [hasKey_eq_false_iff] at h
    simp [delete_resource, h]
  · intro g x h
    rw [hasKey_eq_false_iff] at h
    simp [delete_domain, h]
  · intro g x h
    simp [delete_connection, h]
  · intro g x us h
    rw [hasKey_eq_false_iff] at h
    exact ⟨"Resource " ++ x ++ " not found", by simp [update_resource, h]⟩
  · intro g x us h
    rw [hasKey_eq_false_iff] at h
    exact ⟨"Domain " ++ x ++ " not found", by simp [update_domain, h]⟩
  · intro g x us h
    rw [hasKey_eq_false_iff] at h
    exact ⟨"Connection " ++ x ++ " not found", by simp [update_connection, h]⟩
  · intro g d h
    exact ⟨"Domain " ++ d.id ++ " already exists", by simp [add_domain, h]⟩
  · intro g r h
    exact ⟨"Resource " ++ r.id ++ " already exists", by simp [add_resource, h]⟩
  · intro g c h
    exact ⟨"Connection " ++ c.id ++ " already exists", by simp [add_connection, h]⟩

theorem good_add_resource {g : Graph} {r : Resource} (hg : GoodGraph g) :
    GoodGraph (applyOp g (Op.addResource r)) := by
  unfold applyOp add_resource
  by_cases h1 : hasKey r.id g.resources
  · simpa [h1, Except.toOption] using hg
  · by_cases h2 : hasKey r.domain_id g.domains
    · rcases hasKey_eq_true_iff.mp h2 with ⟨d, hd⟩
      have hdmem : (r.domain_id, d) ∈ g.domains := lookupKey_mem hd
      have hdid : d.id = r.domain_id := hg.domIds _ hdmem
      have hrid_not : r.id ∉ g.resources.map Prod.fst :=
        fun hmem => h1 (hasKey_iff_mem_keys.mpr hmem)
      simp only [h1, h2, Bool.false_eq_true, if_neg, if_false, not_true_eq_false,
        Bool.true_eq_false, hd, Except.toOption, Option.getD_some]
      have hfresh : r.id ∉ d.resource_ids := by
        intro hmem
        obtain ⟨p, hp, hpdom, hpid⟩ := (hg.inv _ hdmem).1 r.id hmem
        apply hrid_not
        exact List.mem_map.mpr ⟨p, hp, by rw [← hpid, hg.resIds p hp]⟩
      refine ⟨?_, ?_, ?_, ?_, ?_, ?_, ?_⟩
      · rw [keys_setKey]; exact hg.domKeys
      · rw [List.map_append, List.nodup_append]
        exact ⟨hg.resKeys, by simp, by
          intro a ha hb
          simp at hb
          subst hb
          exact hrid_not ha⟩
      · intro p hp
        rcases mem_setKey.mp hp with ⟨q, hq, hpq⟩
        by_cases hqk : q.1 == r.domain_id
        · rw [if_pos hqk] at hpq
          subst hpq
          simpa using hdid
        · rw [if_neg hqk] at hpq
          subst hpq
          exact hg.domIds p hq
      · intro p hp
        rcases List.mem_append.mp hp with hp | hp
        · exact hg.resIds p hp
        · simp at hp; subst hp; rfl
      · intro p hp
        rw [hasKey_setKey]
        rcases List.mem_append.mp hp with hp | hp
        · exact hg.noOrphans p hp
        · simp at hp; subst hp; exact h2
      · intro p hp
        rcases mem_setKey.mp hp with ⟨q, hq, hpq⟩
        by_cases hqk : q.1 == r.domain_id
        · rw [if_pos hqk] at hpq
          subst hpq
          have hqd : q.2 = d := by
            have : q = (r.domain_id, q.2) := by
              rw [← beq_iff_eq.mp hqk]
            rw [this] at hq
            exact mem_keyUnique hg.domKeys hq hdmem
          simp only [hqd]
          exact List.Nodup.append (hg.listsNodup _ hdmem) (by simp)
            (by intro a ha hb; simp at hb; subst hb; exact hfresh ha)
        · rw [if_neg hqk] at hpq
          subst hpq
          exact hg.listsNodup p hq
      · intro p hp
        rcases mem_setKey.mp hp with ⟨q, hq, hpq⟩
        by_cases hqk : q.1 == r.domain_id
        · rw [if_pos hqk] at hpq
          subst hpq
          have hqd : q.2 = d := by
            have hqe : q = (r.domain_id, q.2) := by rw [← beq_iff_eq.mp hqk]
            rw [hqe] at hq
            exact mem_keyUnique hg.domKeys hq hdmem
          obtain ⟨hfwd, hbwd⟩ := hg.inv _ hdmem
          constructor
          · intro x hx
            simp only [hqd] at hx
            rcases List.mem_append.mp hx with hx | hx
            · obtain ⟨p', hp', hp'dom, hp'id⟩ := hfwd x hx
              exact ⟨p', List.mem_append.mpr (Or.inl hp'), by simpa [hdid] using hp'dom, hp'id⟩
            · simp at hx
              subst hx
              refine ⟨(r.id, r), List.mem_append.mpr (Or.inr (by simp)), ?_, rfl⟩
              simp [hdid]
          · intro q' hq' hdom'
            simp only [hqd, List.mem_append]
            rcases List.mem_append.mp hq' with hq' | hq'
            · left
              apply hbwd q' hq'
              simpa [hdid] using hdom'
            · simp at hq'
              subst hq'
              right
              simp
        · rw [if_neg hqk] at hpq
          subst hpq
          obtain ⟨hfwd, hbwd⟩ := hg.inv p hq
          constructor
          · intro x hx
            obtain ⟨p', hp', hp'dom, hp'id⟩ := hfwd x hx
            exact ⟨p', List.mem_append.mpr (Or.inl hp'), hp'dom, hp'id⟩
          · intro q' hq' hdom'
            rcases List.mem_append.mp hq' with hq' | hq'
            · exact hbwd q' hq' hdom'
            · simp at hq'
              subst hq'
              exfalso
              simp only at hdom'
              apply hqk
              rw [beq_iff_eq, ← hg.domIds p hq, ← hdom']
    · simpa [h1, h2, Except.toOption] using hg

theorem applyResourceUpd_safe {r : Resource} {u : ResourceUpd} (hu : ResourceUpd.safe u = true) :
    (applyResourceUpd r u).id = r.id ∧ (applyResourceUpd r u).domain_id = r.domain_id := by
  cases u with
  | id v => simp [ResourceUpd.safe] at hu
  | domain_id v => simp [ResourceUpd.safe] at hu
  | type v => exact ⟨rfl, rfl⟩
  | name v => exact ⟨rfl, rfl⟩
  | arguments v => exact ⟨rfl, rfl⟩
  | position v => exact ⟨rfl, rfl⟩

theorem foldResourceUpds_safe {us : List ResourceUpd} (hs : us.all ResourceUpd.safe = true)
    (r : Resource) :
    (us.foldl applyResourceUpd r).id = r.id ∧
    (us.foldl applyResourceUpd r).domain_id = r.domain_id := by
  induction us generalizing r with
  | nil => exact ⟨rfl, rfl⟩
  | cons u t ih =>
    simp only [List.all_cons, Bool.and_eq_true] at hs
    obtain ⟨h1, h2⟩ := applyResourceUpd_safe (r := r) hs.1
    obtain ⟨h3, h4⟩ := ih hs.2 (applyResourceUpd r u)
    exact ⟨by rw [List.foldl_cons, h3, h1], by rw [List.foldl_cons, h4, h2]⟩

theorem applyDomainUpd_safe {d : Domain} {u : DomainUpd} (hu : DomainUpd.safe u = true) :
    (applyDomainUpd d u).id = d.id ∧ (applyDomainUpd d u).resource_ids = d.resource_ids := by
  cases u with
  | id v => simp [DomainUpd.safe] at hu
  | resource_ids v => simp [DomainUpd.safe] at hu
  | name v => exact ⟨rfl, rfl⟩
  | type v => exact ⟨rfl, rfl⟩
  | inputs v => exact ⟨rfl, rfl⟩
  | outputs v => exact ⟨rfl, rfl⟩
  | position v => exact ⟨rfl, rfl⟩
  | width v => exact ⟨rfl, rfl⟩
  | height v => exact ⟨rfl, rfl⟩

theorem foldDomainUpds_safe {us : List DomainUpd} (hs : us.all DomainUpd.safe = true)
    (d : Domain) :
    (us.foldl applyDomainUpd d).id = d.id ∧
    (us.foldl applyDomainUpd d).resource_ids = d.resource_ids := by
  induction us generalizing d with
  | nil => exact ⟨rfl, rfl⟩
  | cons u t ih =>
    simp only [List.all_cons, Bool.and_eq_true] at hs
    obtain ⟨h1, h2⟩ := applyDomainUpd_safe (d := d) hs.1
    obtain ⟨h3, h4⟩ := ih hs.2 (applyDomainUpd d u)
    exact ⟨by rw [List.foldl_cons, h3, h1], by rw [List.foldl_cons, h4, h2]⟩

theorem good_update_resource {g : Graph} {x : String} {us : List ResourceUpd}
    (hg : GoodGraph g) (hs : us.all ResourceUpd.safe = true) :
    GoodGraph (applyOp g (Op.updateResource x us)) := by
  unfold applyOp update_resource
  cases hl : lookupKey x g.resources with
  | none => simpa [hl, Except.toOption] using hg
  | some r =>
    simp only [hl, Except.toOption, Option.getD_some]
    obtain ⟨hpid, hpdom⟩ := foldResourceUpds_safe hs r
    have hrmem : (x, r) ∈ g.resources := lookupKey_mem hl
    have hrid : r.id = x := hg.resIds _ hrmem
    refine ⟨hg.domKeys, ?_, hg.domIds, ?_, ?_, hg.listsNodup, ?_⟩
    · rw [keys_setKey]; exact hg.resKeys
    · intro p hp
      rcases mem_setKey.mp hp with ⟨q, hq, hpq⟩
      by_cases hqx : q.1 == x
      · rw [if_pos hqx] at hpq
        subst hpq
        simp only
        rw [hpid, hrid]
      · rw [if_neg hqx] at hpq
        subst hpq
        exact hg.resIds p hq
    · intro p hp
      rcases mem_setKey.mp hp with ⟨q, hq, hpq⟩
      by_cases hqx : q.1 == x
      · rw [if_pos hqx] at hpq
        subst hpq
        simp only
        rw [hpdom]
        exact hg.noOrphans (x, r) hrmem
      · rw [if_neg hqx] at hpq
        subst hpq
        exact hg.noOrphans p hq
    · intro p hp
      obtain ⟨hfwd, hbwd⟩ := hg.inv p hp
      constructor
      · intro y hy
        obtain ⟨q, hq, hqdom, hqid⟩ := hfwd y hy
        by_cases hqx : q.1 == x
        · have hqr : q.2 = r := by
            have hqe : q = (x, q.2) := by rw [← beq_iff_eq.mp hqx]
            rw [hqe] at hq
            exact mem_keyUnique hg.resKeys hq hrmem
          refine ⟨(x, us.foldl applyResourceUpd r), mem_setKey.mpr ⟨q, hq, by rw [if_pos hqx]⟩, ?_, ?_⟩
          · simp only
            rw [hpdom, ← hqr]
            exact hqdom
          · simp only
            rw [hpid, ← hqr]
            exact hqid
        · exact ⟨q, mem_setKey.mpr ⟨q, hq, by rw [if_neg hqx]⟩, hqdom, hqid⟩
      · intro q' hq' hdom'
        rcases mem_setKey.mp hq' with ⟨q, hq, hq'q⟩
        by_cases hqx : q.1 == x
        · rw [if_pos hqx] at hq'q
          subst hq'q
          simp only at hdom' ⊢
          rw [hpid, hrid]
          have hqr : q.2 = r := by
            have hqe : q = (x, q.2) := by rw [← beq_iff_eq.mp hqx]
            rw [hqe] at hq
            exact mem_keyUnique hg.resKeys hq hrmem
          have := hbwd q hq (by rw [hqr, ← hpdom]; exact hdom')
          rw [hqr, hrid] at this
          exact this
        · rw [if_neg hqx] at hq'q
          subst hq'q
          exact hbwd q' hq hdom'

theorem good_update_domain {g : Graph} {x : String} {us : List DomainUpd}
    (hg : GoodGraph g) (hs : us.all DomainUpd.safe = true) :
    GoodGraph (applyOp g (Op.updateDomain x us)) := by
  unfold applyOp update_domain
  cases hl : lookupKey x g.domains with
  | none => simpa [hl, Except.toOption] using hg
  | some d =>
    simp only [hl, Except.toOption, Option.getD_some]
    obtain ⟨hpid, hprids⟩ := foldDomainUpds_safe hs d
    have hdmem : (x, d) ∈ g.domains := lookupKey_mem hl
    have hdid : d.id = x := hg.domIds _ hdmem
    refine ⟨?_, hg.resKeys, ?_, hg.resIds, ?_, ?_, ?_⟩
    · rw [keys_setKey]; exact hg.domKeys
    · intro p hp
      rcases mem_setKey.mp hp with ⟨q, hq, hpq⟩
      by_cases hqx : q.1 == x
      · rw [if_pos hqx] at hpq
        subst hpq
        simp only
        rw [hpid, hdid]
      · rw [if_neg hqx] at hpq
        subst hpq
        exact hg.domIds p hq
    · intro p hp
      rw [hasKey_setKey]
      exact hg.noOrphans p hp
    · intro p hp
      rcases mem_setKey.mp hp with ⟨q, hq, hpq⟩
      by_cases hqx : q.1 == x
      · rw [if_pos hqx] at hpq
        subst hpq
        simp only
        rw [hprids]
        exact hg.listsNodup (x, d) hdmem
      · rw [if_neg hqx] at hpq
        subst hpq
        exact hg.listsNodup p hq
    · intro p hp
      rcases mem_setKey.mp hp with ⟨q, hq, hpq⟩
      by_cases hqx : q.1 == x
      · rw [if_pos hqx] at hpq
        subst hpq
        have hqd : q.2 = d := by
          have hqe : q = (x, q.2) := by rw [← beq_iff_eq.mp hqx]
          rw [hqe] at hq
          exact mem_keyUnique hg.domKeys hq hdmem
        obtain ⟨hfwd, hbwd⟩ := hg.inv (x, d) hdmem
        constructor
        · intro y hy
          simp only [hpid, hprids] at hy ⊢
          exact hfwd y hy
        · intro q' hq' hdom'
          simp only [hpid, hprids] at hdom' ⊢
          exact hbwd q' hq' hdom'
      · rw [if_neg hqx] at hpq
        subst hpq
        exact hg.inv p hq

theorem good_connection_ops {g : Graph} (op : Op)
    (hc : (match op with
           | Op.addConnection _ => True
           | Op.updateConnection _ _ => True
           | Op.deleteConnection _ => True
           | _ => False))
    (hg : GoodGraph g) : GoodGraph (applyOp g op) := by
  have base : ∀ cs, GoodGraph { g with connections := cs } := by
    intro cs
    exact ⟨hg.domKeys, hg.resKeys, hg.domIds, hg.resIds, hg.noOrphans, hg.listsNodup,
           fun p hp => hg.inv p hp⟩
  cases op with
  | addConnection c =>
    unfold applyOp add_connection
    by_cases h : hasKey c.id g.connections
    · simpa [h, Except.toOption] using hg
    · simpa [h, Except.toOption] using base _
  | updateConnection i us =>
    unfold applyOp update_connection
    cases hl : lookupKey i g.connections with
    | none => simpa [hl, Except.toOption] using hg
    | some c => simpa [hl, Except.toOption] using base _
  | deleteConnection i =>
    unfold applyOp delete_connection
    by_cases h : hasKey i g.connections
    · simpa [h] using base _
    · simpa [h] using hg
  | addDomain d => cases hc
  | addResource r => cases hc
  | updateDomain i us => cases hc
  | updateResource i us => cases hc
  | deleteDomain i => cases hc
  | deleteResource i => cases hc

theorem good_delete_resource {g : Graph} {x : String} (hg : GoodGraph g) :
    GoodGraph (delete_resource g x) := by
  unfold delete_resource
  cases hl : lookupKey x g.resources with
  | none => exact hg
  | some r =>
    have hrmem : (x, r) ∈ g.resources := lookupKey_mem hl
    have hrid : r.id = x := hg.resIds _ hrmem
    have hdkey : hasKey r.domain_id g.domains = true := hg.noOrphans _ hrmem
    obtain ⟨d, hd⟩ := hasKey_eq_true_iff.mp hdkey
    have hdmem : (r.domain_id, d) ∈ g.domains := lookupKey_mem hd
    have hdid : d.id = r.domain_id := hg.domIds _ hdmem
    simp only [hl, hd]
    by_cases hxin : x ∈ d.resource_ids
    · simp only [if_pos hxin]
      have hrkeyUnique : ∀ q ∈ g.resources, Prod.fst q = x → Prod.snd q = r := by
        intro q hq hqx
        have hqe : q = (x, q.2) := by rw [← hqx]
        rw [hqe] at hq
        exact mem_keyUnique hg.resKeys hq hrmem
      refine ⟨?_, ?_, ?_, ?_, ?_, ?_, ?_⟩
      · rw [keys_setKey]; exact hg.domKeys
      · exact hg.resKeys.sublist ((List.filter_sublist _).map Prod.fst)
      · intro p hp
        rcases mem_setKey.mp hp with ⟨q, hq, hpq⟩
        by_cases hqk : q.1 == r.domain_id
        · rw [if_pos hqk] at hpq
          subst hpq
          simpa using hdid
        · rw [if_neg hqk] at hpq
          subst hpq
          exact hg.domIds p hq
      · intro p hp
        exact hg.resIds p (mem_eraseKey.mp hp).1
      · intro p hp
        rw [hasKey_setKey]
        exact hg.noOrphans p (mem_eraseKey.mp hp).1
      · intro p hp
        rcases mem_setKey.mp hp with ⟨q, hq, hpq⟩
        by_cases hqk : q.1 == r.domain_id
        · rw [if_pos hqk] at hpq
          subst hpq
          have hqd : q.2 = d := by
            have hqe : q = (r.domain_id, q.2) := by rw [← beq_iff_eq.mp hqk]
            rw [hqe] at hq
            exact mem_keyUnique hg.domKeys hq hdmem
          simp only
          exact (hg.listsNodup _ hdmem).erase x
        · rw [if_neg hqk] at hpq
          subst hpq
          exact hg.listsNodup p hq
      · intro p hp
        rcases mem_setKey.mp hp with ⟨q, hq, hpq⟩
        by_cases hqk : q.1 == r.domain_id
        · rw [if_pos hqk] at hpq
          subst hpq
          have hqd : q.2 = d := by
            have hqe : q = (r.domain_id, q.2) := by rw [← beq_iff_eq.mp hqk]
            rw [hqe] at hq
            exact mem_keyUnique hg.domKeys hq hdmem
          obtain ⟨hfwd, hbwd⟩ := hg.inv _ hdmem
          have hnd := hg.listsNodup _ hdmem
          constructor
          · intro y hy
            simp only at hy
            have hy' := (hnd.mem_erase_iff.mp hy)
            obtain ⟨q', hq', hq'dom, hq'id⟩ := hfwd y hy'.2
            have hq'1 : q'.1 = y := by rw [← hg.resIds q' hq', hq'id]
            refine ⟨q', mem_eraseKey.mpr ⟨hq', by rw [hq'1]; exact hy'.1⟩, ?_, hq'id⟩
            simpa [hdid] using hq'dom
          · intro q' hq' hdom'
            have hq'mem := (mem_eraseKey.mp hq').1
            have hq'ne : q'.1 ≠ x := (mem_eraseKey.mp hq').2
            simp only at hdom' ⊢
            have : q'.2.id ∈ d.resource_ids := by
              apply hbwd q' hq'mem
              simpa [hdid] using hdom'
            apply hnd.mem_erase_iff.mpr
            refine ⟨?_, this⟩
            rw [hg.resIds q' hq'mem]
            exact hq'ne
        · rw [if_neg hqk] at hpq
          subst hpq
          obtain ⟨hfwd, hbwd⟩ := hg.inv p hq
          constructor
          · intro y hy
            obtain ⟨q', hq', hq'dom, hq'id⟩ := hfwd y hy
            have hq'1 : q'.1 = y := by rw [← hg.resIds q' hq', hq'id]
            have hyx : y ≠ x := by
              intro hyx
              subst hyx
              have := hrkeyUnique q' hq' hq'1
              rw [this] at hq'dom
              apply hqk
              rw [beq_iff_eq, ← hg.domIds p hq, ← hq'dom]
            exact ⟨q', mem_eraseKey.mpr ⟨hq', by rw [hq'1]; exact hyx⟩, hq'dom, hq'id⟩
          · intro q' hq' hdom'
            exact hbwd q' (mem_eraseKey.mp hq').1 hdom'
    · exfalso
      apply hxin
      have := (hg.inv _ hdmem).2 (x, r) hrmem (by simpa using hdid.symm)
      simpa [hrid] using this

theorem delete_resource_resources (g : Graph) (x : String) :
    (delete_resource g x).resources = eraseKey x g.resources := by
  unfold delete_resource
  cases hl : lookupKey x g.resources with
  | none =>
    have : hasKey x g.resources = false := hasKey_eq_false_iff.mpr hl
    simp only [hl]
    rw [eraseKey_of_hasKey_false this]
  | some r => simp only [hl]

theorem delete_resource_domKeys (g : Graph) (x : String) :
    ((delete_resource g x).domains).map Prod.fst = g.domains.map Prod.fst := by
  unfold delete_resource
  cases hl : lookupKey x g.resources with
  | none => rfl
  | some r =>
    simp only [hl]
    cases hd : lookupKey r.domain_id g.domains with
    | none => rfl
    | some d =>
      by_cases hxin : x ∈ d.resource_ids
      · simp only [hd, if_pos hxin, keys_setKey]
      · simp only [hd, if_neg hxin]

theorem good_fold_delete {l : List String} {g : Graph} (hg : GoodGraph g) :
    GoodGraph (l.foldl delete_resource g) := by
  induction l generalizing g with
  | nil => exact hg
  | cons a t ih => exact ih (good_delete_resource hg)

theorem fold_delete_resources_mem {l : List String} {g : Graph} {p : String × Resource} :
    p ∈ (l.foldl delete_resource g).resources ↔ p ∈ g.resources ∧ p.1 ∉ l := by
  induction l generalizing g with
  | nil => simp
  | cons a t ih =>
    rw [List.foldl_cons, ih, delete_resource_resources, mem_eraseKey]
    constructor
    · rintro ⟨⟨h1, h2⟩, h3⟩
      exact ⟨h1, by simp [h2, h3]⟩
    · rintro ⟨h1, h2⟩
      simp only [List.mem_cons, not_or] at h2
      exact ⟨⟨h1, h2.1⟩, h2.2⟩

theorem fold_delete_resources_domKeys {l : List String} {g : Graph} :
    ((l.foldl delete_resource g).domains).map Prod.fst = g.domains.map Prod.fst := by
  induction l generalizing g with
  | nil => rfl
  | cons a t ih => rw [List.foldl_cons, ih, delete_resource_domKeys]

theorem good_delete_domain {g : Graph} {x : String} (hg : GoodGraph g) :
    GoodGraph (delete_domain g x) := by
  unfold delete_domain
  cases hl : lookupKey x g.domains with
  | none => exact hg
  | some d =>
    simp only [hl]
    have hdmem : (x, d) ∈ g.domains := lookupKey_mem hl
    have hdid : d.id = x := hg.domIds _ hdmem
    have hg1 : GoodGraph (d.resource_ids.foldl delete_resource g) := good_fold_delete hg
    refine ⟨?_, hg1.resKeys, ?_, hg1.resIds, ?_, ?_, ?_⟩
    · exact hg1.domKeys.sublist ((List.filter_sublist _).map Prod.fst)
    · intro p hp
      exact hg1.domIds p (mem_eraseKey.mp hp).1
    · intro p hp
      have hp1 := fold_delete_resources_mem.mp hp
      have hne : p.2.domain_id ≠ x := by
        intro heq
        apply hp1.2
        have : p.2.id ∈ d.resource_ids := by
          apply (hg.inv _ hdmem).2 p hp1.1
          rw [heq, hdid]
        rwa [hg.resIds p hp1.1] at this
      exact hasKey_eraseKey_of_ne hne (hg1.noOrphans p hp)
    · intro p hp
      exact hg1.listsNodup p (mem_eraseKey.mp hp).1
    · intro p hp
      have hp1 := (mem_eraseKey.mp hp).1
      obtain ⟨hfwd, hbwd⟩ := hg1.inv p hp1
      exact ⟨hfwd, hbwd⟩

theorem good_applyOp {g : Graph} {op : Op} (hg : GoodGraph g) (hs : Op.safe op = true) :
    GoodGraph (applyOp g op) := by
  cases op with
  | addDomain d =>
    apply good_add_domain hg
    simpa [Op.safe, List.isEmpty_iff] using hs
  | addResource r => exact good_add_resource hg
  | addConnection c => exact good_connection_ops _ trivial hg
  | updateDomain i us =>
    apply good_update_domain hg
    simpa [Op.safe] using hs
  | updateResource i us =>
    apply good_update_resource hg
    simpa [Op.safe] using hs
  | updateConnection i us => exact good_connection_ops _ trivial hg
  | deleteDomain i => exact good_delete_domain hg
  | deleteResource i => exact good_delete_resource hg
  | deleteConnection i => exact good_connection_ops _ trivial hg

theorem good_runOps (ops : List Op) (hs : ∀ op ∈ ops, Op.safe op = true) :
    GoodGraph (runOps ops) := by
  suffices h : ∀ (l : List Op) (g : Graph), GoodGraph g →
      (∀ op ∈ l, Op.safe op = true) → GoodGraph (l.foldl applyOp g) by
    exact h ops Graph.empty goodEmpty hs
  intro l
  induction l with
  | nil => intro g hg _; exact hg
  | cons op t ih =>
    intro g hg hsafe
    exact ih _ (good_applyOp hg (hsafe op (by simp)))
      (fun o ho => hsafe o (List.mem_cons_of_mem _ ho))

/-- C2 counterexample: the op sequence `ceOps`, applied to the empty graph,
breaks the bidirectional membership invariant — refuting the claim that
every mutating operation (including updates that change a resource's
`domain_id`) preserves it. -/
theorem c2_counterexample : ¬ membershipInv (runOps ceOps) := by decide

/-- C2 (amended).  After any sequence of mutating operations applied to the
empty graph, every domain's `resource_ids` holds exactly the ids of the
resources whose `domain_id` is that domain's id — provided each `add_domain`
payload carries an empty member list and no update payload assigns the
`id`, `domain_id` or `resource_ids` fields.  (The counterexample
`c2_counterexample` shows the unrestricted claim is false: the generic
`setattr` loops of `update_resource` / `update_domain` do no membership
bookkeeping.) -/
theorem c2_amended_membership_invariant (ops : List Op)
    (hs : ∀ op ∈ ops, Op.safe op = true) : membershipInv (runOps ops) :=
  (good_runOps ops hs).inv

/-- Witness for the amended C2 on a concrete safe op sequence exercising
add, update, and both deletes. -/
theorem c2_witness :
    (∀ op ∈ safeOps, Op.safe op = true) ∧ membershipInv (runOps safeOps) :=
  ⟨by decide, c2_amended_membership_invariant safeOps (by decide)⟩

/-- Witness for C10 at a concrete graph: deleting missing ids of all three
kinds is a no-op, updating a missing resource raises, adding a duplicate
domain raises. -/
theorem c10_witness :
    delete_resource gW "zz" = gW ∧ delete_domain gW "zz" = gW ∧
    delete_connection gW "zz" = gW ∧
    (∃ e, update_resource gW "zz" [] = Except.error e) ∧
    (∃ e, add_domain gW dW = Except.error e) :=
  ⟨c10_delete_missing_is_noop.1 gW "zz" (by decide),
   c10_delete_missing_is_noop.2.1 gW "zz" (by decide),
   c10_delete_missing_is_noop.2.2.1 gW "zz" (by decide),
   c10_delete_missing_is_noop.2.2.2.1 gW "zz" [] (by decide),
   c10_delete_missing_is_noop.2.2.2.2.2.2.1 gW dW (by decide)⟩

/-! ### Claim C1 — IR round trip -/

theorem domainType_roundtrip (t : DomainType) : DomainType.ofVal t.val = Except.ok t := by
  cases t <;> rfl

theorem nodeType_roundtrip (t : NodeType) : NodeType.ofVal t.val = Except.ok t := by
  cases t <;> rfl

theorem connectionType_roundtrip (t : ConnectionType) :
    ConnectionType.ofVal t.val = Except.ok t := by
  cases t <;> rfl

theorem fromIRDomain_toIRDomain (d : Domain) :
    fromIRDomain (toIRDomain d) = Except.ok (stripDomain d) := by
  unfold fromIRDomain toIRDomain stripDomain
  rw [domainType_roundtrip]
  simp [List.map_map, Function.comp]

theorem fromIRResource_toIRResource (g : Graph) (r : Resource) :
    fromIRResource (toIRResource g r) = r := rfl

theorem fromIRConnection_toIRConnection (c : Connection) :
    fromIRConnection (toIRConnection c) = Except.ok c := by
  unfold fromIRConnection toIRConnection
  rw [nodeType_roundtrip, nodeType_roundtrip, connectionType_roundtrip]

theorem lookupKey_cons {α : Type} (k : String) (p : String × α) (t : List (String × α)) :
    lookupKey k (p :: t) = if p.1 == k then some p.2 else lookupKey k t := by
  cases hpk : p.1 == k
  · simp [lookupKey, List.find?_cons_of_neg, hpk]
  · simp [lookupKey, List.find?_cons_of_pos, hpk]

theorem setKey_cons {α : Type} (k : String) (v : α) (p : String × α) (t : List (String × α)) :
    setKey k v (p :: t) = (if p.1 == k then (k, v) else p) :: setKey k v t := rfl

theorem lookupKey_map_values {α β : Type} (f : α → β) (k : String)
    (l : List (String × α)) :
    lookupKey k (l.map (fun p => (Prod.fst p, f (Prod.snd p)))) = (lookupKey k l).map f := by
  induction l with
  | nil => rfl
  | cons p t ih =>
    simp only [List.map_cons, lookupKey_cons]
    cases hpk : p.1 == k
    · simpa [hpk] using ih
    · simp [hpk]

theorem keys_map_values {α β : Type} (f : α → β) (l : List (String × α)) :
    (l.map (fun p => (Prod.fst p, f (Prod.snd p)))).map Prod.fst = l.map Prod.fst := by
  induction l with
  | nil => rfl
  | cons p t ih => simp [ih]

theorem lookupKey_setKey {α : Type} (k k' : String) (v : α) (l : List (String × α)) :
    lookupKey k (setKey k' v l) =
      if k' = k then (lookupKey k l).map (fun _ => v) else lookupKey k l := by
  induction l with
  | nil => simp [setKey, lookupKey]
  | cons p t ih =>
    rw [setKey_cons]
    by_cases hpk' : p.1 == k'
    · have hp1 : p.1 = k' := beq_iff_eq.mp hpk'
      by_cases hk : k' = k
      · subst hk
        rw [if_pos rfl] at ih ⊢
        rw [if_pos hpk', lookupKey_cons, lookupKey_cons]
        simp [hp1]
      · have hpk : (p.1 == k) = false := by
          rw [beq_eq_false_iff_ne, hp1]; exact hk
        rw [if_pos hpk', lookupKey_cons, lookupKey_cons]
        have hkk : (k' == k) = false := by rw [beq_eq_false_iff_ne]; exact hk
        simp only [hkk, hpk, Bool.false_eq_true, if_neg, if_false]
        rw [if_neg hk] at ih
        rw [ih, if_neg hk]
    · rw [if_neg hpk', lookupKey_cons, lookupKey_cons]
      by_cases hpk : p.1 == k
      · have hk : ¬ k' = k := by
          intro h
          subst h
          exact hpk' hpk
        simp [hpk, hk]
      · simp only [hpk, Bool.false_eq_true, if_neg, if_false]
        exact ih

theorem fold_add_domains (ds : List (String × Domain)) :
    ∀ (acc : Graph),
    (∀ p ∈ ds, (Prod.snd p).id = Prod.fst p) →
    (∀ p ∈ ds, hasKey (Prod.fst p) acc.domains = false) →
    (ds.map Prod.fst).Nodup →
    foldE fromIRDomainStep acc (ds.map (fun p => toIRDomain (Prod.snd p)))
      = Except.ok { acc with
          domains := acc.domains ++ ds.map (fun p => (Prod.fst p, stripDomain (Prod.snd p))) } := by
  induction ds with
  | nil =>
    intro acc _ _ _
    show Except.ok acc = _
    cases acc
    simp
  | cons p t ih =>
    intro acc hids hfresh hnd
    have hpid : (stripDomain p.2).id = p.1 := hids p (by simp)
    have hstep : fromIRDomainStep acc (toIRDomain p.2) =
        Except.ok { acc with domains := acc.domains ++ [(p.1, stripDomain p.2)] } := by
      unfold fromIRDomainStep
      rw [fromIRDomain_toIRDomain]
      show add_domain acc (stripDomain p.2) = _
      unfold add_domain
      rw [hpid]
      simp [hfresh p (by simp)]
    rw [List.map_cons, foldE, hstep]
    have hih := ih { acc with domains := acc.domains ++ [(p.1, stripDomain p.2)] }
      (fun q hq => hids q (by simp [hq]))
      (fun q hq => by
        show hasKey q.1 (acc.domains ++ [(p.1, stripDomain p.2)]) = false
        rw [hasKey_append]
        have h1 := hfresh q (by simp [hq])
        have h2 : (p.1 == q.1) = false := by
          rw [beq_eq_false_iff_ne]
          intro h
          rcases List.nodup_cons.mp hnd with ⟨hnp, _⟩
          exact hnp (h ▸ List.mem_map.mpr ⟨q, hq, rfl⟩)
        simp [hasKey, h2]
        simp [hasKey] at h1
        exact h1)
      (List.nodup_cons.mp hnd).2
    show foldE fromIRDomainStep { acc with domains := acc.domains ++ [(p.1, stripDomain p.2)] }
        (t.map (fun p => toIRDomain (Prod.snd p))) = _
    rw [hih]
    simp

theorem fold_add_connections (cs : List (String × Connection)) :
    ∀ (acc : Graph),
    (∀ p ∈ cs, (Prod.snd p).id = Prod.fst p) →
    (∀ p ∈ cs, hasKey (Prod.fst p) acc.connections = false) →
    (cs.map Prod.fst).Nodup →
    foldE fromIRConnectionStep acc (cs.map (fun p => toIRConnection (Prod.snd p)))
      = Except.ok { acc with connections := acc.connections ++ cs } := by
  induction cs with
  | nil =>
    intro acc _ _ _
    show Except.ok acc = _
    cases acc
    simp
  | cons p t ih =>
    intro acc hids hfresh hnd
    have hpid : (Prod.snd p).id = p.1 := hids p (by simp)
    have hstep : fromIRConnectionStep acc (toIRConnection p.2) =
        Except.ok { acc with connections := acc.connections ++ [(p.1, p.2)] } := by
      unfold fromIRConnectionStep
      rw [fromIRConnection_toIRConnection]
      show add_connection acc p.2 = _
      unfold add_connection
      rw [hpid]
      simp [hfresh p (by simp)]
    rw [List.map_cons, foldE, hstep]
    have hih := ih { acc with connections := acc.connections ++ [(p.1, p.2)] }
      (fun q hq => hids q (by simp [hq]))
      (fun q hq => by
        show hasKey q.1 (acc.connections ++ [(p.1, p.2)]) = false
        rw [hasKey_append]
        have h1 := hfresh q (by simp [hq])
        have h2 : (p.1 == q.1) = false := by
          rw [beq_eq_false_iff_ne]
          intro h
          rcases List.nodup_cons.mp hnd with ⟨hnp, _⟩
          exact hnp (h ▸ List.mem_map.mpr ⟨q, hq, rfl⟩)
        simp [hasKey, h2]
        simp [hasKey] at h1
        exact h1)
      (List.nodup_cons.mp hnd).2
    show foldE fromIRConnectionStep { acc with connections := acc.connections ++ [(p.1, p.2)] }
        (t.map (fun p => toIRConnection (Prod.snd p))) = _
    rw [hih]
    simp

theorem fold_add_resources (g0 : Graph) (rs : List (String × Resource)) :
    ∀ (acc : Graph),
    (∀ p ∈ rs, (Prod.snd p).id = Prod.fst p) →
    (∀ p ∈ rs, hasKey (Prod.fst p) acc.resources = false) →
    (∀ p ∈ rs, hasKey (Prod.snd p).domain_id acc.domains = true) →
    (rs.map Prod.fst).Nodup →
    ∃ gout,
      foldE fromIRResourceStep acc (rs.map (fun p => toIRResource g0 (Prod.snd p)))
        = Except.ok gout ∧
      gout.resources = acc.resources ++ rs ∧
      gout.connections = acc.connections ∧
      gout.domains.map Prod.fst = acc.domains.map Prod.fst ∧
      (∀ k, lookupKey k gout.domains = (lookupKey k acc.domains).map (fun d =>
        { d with resource_ids := d.resource_ids ++
            ((rs.filter (fun q => (Prod.snd q).domain_id == k)).map
              (fun q => (Prod.snd q).id)) })) := by
  induction rs with
  | nil =>
    intro acc _ _ _ _
    refine ⟨acc, rfl, by simp, rfl, rfl, ?_⟩
    intro k
    cases lookupKey k acc.domains with
    | none => rfl
    | some d => simp
  | cons p t ih =>
    intro acc hids hfreshR hdomsOK hnd
    obtain ⟨d0, hd0⟩ := hasKey_eq_true_iff.mp (hdomsOK p (by simp))
    have hpid : (Prod.snd p).id = p.1 := hids p (by simp)
    have hstep : fromIRResourceStep acc (toIRResource g0 p.2) =
        Except.ok { acc with
          resources := acc.resources ++ [(p.1, p.2)],
          domains := setKey p.2.domain_id
            { d0 with resource_ids := d0.resource_ids ++ [p.1] } acc.domains } := by
      unfold fromIRResourceStep
      rw [fromIRResource_toIRResource]
      unfold add_resource
      rw [hpid]
      simp [hfreshR p (by simp), hd0, lookupKey_some_hasKey hd0]
    rw [List.map_cons, foldE, hstep]
    have hih := ih { acc with
        resources := acc.resources ++ [(p.1, p.2)],
        domains := setKey p.2.domain_id
          { d0 with resource_ids := d0.resource_ids ++ [p.1] } acc.domains }
      (fun q hq => hids q (by simp [hq]))
      (fun q hq => by
        show hasKey q.1 (acc.resources ++ [(p.1, p.2)]) = false
        rw [hasKey_append]
        have h1 := hfreshR q (by simp [hq])
        have h2 : (p.1 == q.1) = false := by
          rw [beq_eq_false_iff_ne]
          intro h
          rcases List.nodup_cons.mp hnd with ⟨hnp, _⟩
          exact hnp (h ▸ List.mem_map.mpr ⟨q, hq, rfl⟩)
        simp [hasKey, h2]
        simp [hasKey] at h1
        exact h1)
      (fun q hq => by
        show hasKey q.2.domain_id
          (setKey p.2.domain_id { d0 with resource_ids := d0.resource_ids ++ [p.1] } acc.domains) = true
        rw [hasKey_setKey]
        exact hdomsOK q (by simp [hq]))
      (List.nodup_cons.mp hnd).2
    obtain ⟨gout, hfold, hres, hcon, hkeys, hlook⟩ := hih
    refine ⟨gout, ?_, ?_, ?_, ?_, ?_⟩
    · show foldE fromIRResourceStep { acc with
          resources := acc.resources ++ [(p.1, p.2)],
          domains := setKey p.2.domain_id
            { d0 with resource_ids := d0.resource_ids ++ [p.1] } acc.domains }
        (t.map (fun q => toIRResource g0 (Prod.snd q))) = _
      exact hfold
    · rw [hres]
      show acc.resources ++ [(p.1, p.2)] ++ t = _
      simp
    · rw [hcon]
    · rw [hkeys]
      exact keys_setKey _ _ _
    · intro k
      rw [hlook k]
      show (lookupKey k (setKey p.2.domain_id
          { d0 with resource_ids := d0.resource_ids ++ [p.1] } acc.domains)).map _ = _
      rw [lookupKey_setKey]
      by_cases hdk : p.2.domain_id = k
      · subst hdk
        rw [if_pos rfl, hd0]
        simp [List.filter_cons, hpid]
      · rw [if_neg hdk]
        have hfc : ((p :: t).filter (fun q => (Prod.snd q).domain_id == k)) =
            t.filter (fun q => (Prod.snd q).domain_id == k) := by
          rw [List.filter_cons]
          simp [hdk]
        rw [hfc]

theorem hasKey_congr_keys {α β : Type} {k : String} {l : List (String × α)}
    {l' : List (String × β)} (h : l.map Prod.fst = l'.map Prod.fst) :
    hasKey k l = hasKey k l' := by
  rw [Bool.eq_iff_iff, hasKey_iff_mem_keys, hasKey_iff_mem_keys, h]

theorem from_ir_eq (ir : IR) (g1 g2 g3 : Graph)
    (h1 : foldE fromIRDomainStep Graph.empty ir.domains = Except.ok g1)
    (h2 : foldE fromIRResourceStep g1 ir.resources = Except.ok g2)
    (h3 : foldE fromIRConnectionStep g2 ir.connections = Except.ok g3) :
    from_ir ir = Except.ok g3 := by
  unfold from_ir
  simp only [h1, h2, h3]

/-- C1.  For every well-formed graph `G`, `from_ir(to_ir(G))` succeeds and
yields a graph with the same domain ids, the same resources association
(hence the same resource ids and attribute values and even positions), the
same connections association (hence the same connection ids and fields),
and, per domain, the same `resource_ids` membership and the same
id/name/type.  Only the presentation-only data differs: the reimported
domains carry `Position(0,0)`, `width=0`, `height=0` (and dropped
input/output descriptions), exactly the fields the claim allows to
change. -/
theorem c1_ir_round_trip (g : Graph) (hg : WFGraph g) :
    ∃ g', from_ir (to_ir g) = Except.ok g' ∧
      g'.domains.map Prod.fst = g.domains.map Prod.fst ∧
      (∀ k d' d, lookupKey k g'.domains = some d' → lookupKey k g.domains = some d →
        ((∀ x, x ∈ d'.resource_ids ↔ x ∈ d.resource_ids) ∧
         d'.id = d.id ∧ d'.name = d.name ∧ d'.type = d.type)) ∧
      g'.resources = g.resources ∧
      g'.connections = g.connections := by
  have hm1 : ((to_ir g).domains) = g.domains.map (fun p => toIRDomain (Prod.snd p)) := by
    show (dictValues g.domains).map toIRDomain = _
    simp only [dictValues, List.map_map]
    rfl
  have hm2 : ((to_ir g).resources) = g.resources.map (fun p => toIRResource g (Prod.snd p)) := by
    show (dictValues g.resources).map (toIRResource g) = _
    simp only [dictValues, List.map_map]
    rfl
  have hm3 : ((to_ir g).connections) = g.connections.map (fun p => toIRConnection (Prod.snd p)) := by
    show (dictValues g.connections).map toIRConnection = _
    simp only [dictValues, List.map_map]
    rfl
  have h1 : foldE fromIRDomainStep Graph.empty ((to_ir g).domains) =
      Except.ok { domains := g.domains.map (fun p => (Prod.fst p, stripDomain (Prod.snd p))),
                  resources := [], connections := [] } := by
    rw [hm1]
    exact fold_add_domains g.domains Graph.empty hg.domIds (fun p _ => rfl) hg.domKeys
  have hkeysG1 : (g.domains.map (fun p => (Prod.fst p, stripDomain (Prod.snd p)))).map Prod.fst
      = g.domains.map Prod.fst := keys_map_values _ _
  obtain ⟨gout, hfold2, hres, hcon, hkeys2, hlook⟩ :=
    fold_add_resources g g.resources
      { domains := g.domains.map (fun p => (Prod.fst p, stripDomain (Prod.snd p))),
        resources := [], connections := [] }
      hg.resIds
      (fun q _ => rfl)
      (fun q hq => by
        show hasKey (Prod.snd q).domain_id
          (g.domains.map (fun p => (Prod.fst p, stripDomain (Prod.snd p)))) = true
        rw [hasKey_congr_keys hkeysG1]
        exact hg.noOrphans q hq)
      hg.resKeys
  have h2 : foldE fromIRResourceStep
      { domains := g.domains.map (fun p => (Prod.fst p, stripDomain (Prod.snd p))),
        resources := [], connections := [] } ((to_ir g).resources) = Except.ok gout := by
    rw [hm2]
    exact hfold2
  have hconnil : gout.connections = [] := hcon
  have h3 : foldE fromIRConnectionStep gout ((to_ir g).connections) =
      Except.ok { gout with connections := gout.connections ++ g.connections } := by
    rw [hm3]
    exact fold_add_connections g.connections gout hg.conIds
      (fun q _ => by
        show hasKey q.1 gout.connections = false
        rw [hconnil]
        rfl)
      hg.conKeys
  refine ⟨{ gout with connections := gout.connections ++ g.connections },
    from_ir_eq _ _ _ _ h1 h2 h3, ?_, ?_, ?_, ?_⟩
  · show gout.domains.map Prod.fst = _
    rw [hkeys2]
    exact hkeysG1
  · intro k d' d hld' hld
    have hmv : lookupKey k (g.domains.map (fun p => (Prod.fst p, stripDomain (Prod.snd p))))
        = (lookupKey k g.domains).map stripDomain := lookupKey_map_values stripDomain k g.domains
    have step1 : lookupKey k gout.domains =
        Option.map (fun d => { d with resource_ids := d.resource_ids ++
            ((g.resources.filter (fun q => (Prod.snd q).domain_id == k)).map
              (fun q => (Prod.snd q).id)) }) ((lookupKey k g.domains).map stripDomain) := by
      rw [hlook k]
      exact congrArg _ hmv
    rw [hld] at step1
    simp only [Option.map_some'] at step1
    have h' : lookupKey k gout.domains = some d' := hld'
    rw [step1] at h'
    have hd'eq := (Option.some.inj h')
    have hdm : (k, d) ∈ g.domains := lookupKey_mem hld
    have hdid : d.id = k := hg.domIds _ hdm
    obtain ⟨hfwd, hbwd⟩ := hg.inv _ hdm
    subst hd'eq
    refine ⟨?_, rfl, rfl, rfl⟩
    intro x
    show x ∈ (stripDomain d).resource_ids ++
        ((g.resources.filter (fun q => (Prod.snd q).domain_id == k)).map
          (fun q => (Prod.snd q).id)) ↔ x ∈ d.resource_ids
    show x ∈ [] ++ _ ↔ _
    rw [List.nil_append]
    constructor
    · intro hx
      obtain ⟨q, hqf, hqx⟩ := List.mem_map.mp hx
      obtain ⟨hqmem, hqk⟩ := List.mem_filter.mp hqf
      have : (Prod.snd q).id ∈ d.resource_ids := by
        apply hbwd q hqmem
        rw [hdid]
        exact beq_iff_eq.mp hqk
      rwa [hqx] at this
    · intro hx
      obtain ⟨q, hq, hqdom, hqid⟩ := hfwd x hx
      exact List.mem_map.mpr ⟨q, List.mem_filter.mpr ⟨hq, by rw [beq_iff_eq, hqdom, hdid]⟩, hqid⟩
  · show gout.resources = _
    rw [hres]
    rfl
  · show gout.connections ++ g.connections = g.connections
    rw [hconnil]
    rfl

/-- Witness for C1 at the concrete fixture graph `gW`. -/
theorem c1_witness :
    ∃ g', from_ir (to_ir gW) = Except.ok g' ∧
      g'.domains.map Prod.fst = gW.domains.map Prod.fst ∧
      (∀ k d' d, lookupKey k g'.domains = some d' → lookupKey k gW.domains = some d →
        ((∀ x, x ∈ d'.resource_ids ↔ x ∈ d.resource_ids) ∧
         d'.id = d.id ∧ d'.name = d.name ∧ d'.type = d.type)) ∧
      g'.resources = gW.resources ∧
      g'.connections = gW.connections :=
  c1_ir_round_trip gW
    ⟨by decide, by decide, by decide, by decide, by decide, by decide, by decide, by decide⟩

/-! ### Claim C3 — cycle detection -/

theorem hasCycleAux_zero (adj : List (String × List String)) (node : String)
    (visited recStack : List String) :
    hasCycleAux adj 0 node visited recStack = (false, visited) := rfl

theorem hasCycleAux_succ (adj : List (String × List String)) (fuel : Nat) (node : String)
    (visited recStack : List String) :
    hasCycleAux adj (fuel + 1) node visited recStack =
      goNeighbors (hasCycleAux adj fuel) (node :: recStack) (neighborsOf adj node)
        (node :: visited) := rfl

theorem edgePath_snoc {adj : List (String × List String)} {s t u : String}
    (h : EdgePath adj s t) (he : u ∈ neighborsOf adj t) : EdgePath adj s u := by
  induction h with
  | single h1 => exact .cons h1 (.single he)
  | cons h1 _ ih => exact .cons h1 (ih he)

theorem chain_mem_path {adj : List (String × List String)} :
    ∀ (rest : List String) (v0 n : String), ChainTo adj (v0 :: rest) →
      n ∈ (v0 :: rest) → n = v0 ∨ EdgePath adj n v0 := by
  intro rest
  induction rest with
  | nil =>
    intro v0 n _ hn
    simp at hn
    exact Or.inl hn
  | cons v1 rest' ih =>
    intro v0 n hch hn
    obtain ⟨hedge, hch'⟩ : v0 ∈ neighborsOf adj v1 ∧ ChainTo adj (v1 :: rest') := hch
    rcases List.mem_cons.mp hn with hn | hn
    · exact Or.inl hn
    · rcases ih v1 n hch' hn with hn1 | hp
      · subst hn1
        exact Or.inr (.single hedge)
      · exact Or.inr (edgePath_snoc hp hedge)

theorem goNeighbors_sound {adj : List (String × List String)}
    (next : String → List String → List String → Bool × List String)
    (hnext : ∀ node visited recStack, ChainTo adj (node :: recStack) →
      (next node visited recStack).1 = true → ∃ a, EdgePath adj a a) :
    ∀ (ns : List String) (visited : List String) (v0 : String) (rest : List String),
      (∀ n ∈ ns, n ∈ neighborsOf adj v0) →
      ChainTo adj (v0 :: rest) →
      (goNeighbors next (v0 :: rest) ns visited).1 = true →
      ∃ a, EdgePath adj a a := by
  intro ns
  induction ns with
  | nil =>
    intro visited v0 rest _ _ hrun
    simp [goNeighbors] at hrun
  | cons n rest' ih =>
    intro visited v0 rest hsub hch hrun
    rw [goNeighbors] at hrun
    by_cases hv : n ∈ visited
    · rw [if_pos hv] at hrun
      by_cases hr : n ∈ v0 :: rest
      · -- back edge into the recursion stack closes a cycle
        have hedge : n ∈ neighborsOf adj v0 := hsub n (by simp)
        rcases chain_mem_path rest v0 n hch hr with hn | hp
        · subst hn
          exact ⟨n, .single hedge⟩
        · exact ⟨n, edgePath_snoc hp hedge⟩
      · rw [if_neg hr] at hrun
        exact ih visited v0 rest (fun m hm => hsub m (by simp [hm])) hch hrun
    · rw [if_neg hv] at hrun
      cases hcall : next n visited (v0 :: rest) with
      | mk b v =>
        rw [hcall] at hrun
        cases b with
        | true =>
          have hch2 : ChainTo adj (n :: v0 :: rest) := ⟨hsub n (by simp), hch⟩
          exact hnext n visited (v0 :: rest) hch2 (by rw [hcall])
        | false =>
          exact ih v v0 rest (fun m hm => hsub m (by simp [hm])) hch hrun

theorem hasCycleAux_sound {adj : List (String × List String)} :
    ∀ (fuel : Nat) (node : String) (visited recStack : List String),
      ChainTo adj (node :: recStack) →
      (hasCycleAux adj fuel node visited recStack).1 = true →
      ∃ a, EdgePath adj a a := by
  intro fuel
  induction fuel with
  | zero =>
    intro node visited recStack _ hrun
    rw [hasCycleAux_zero] at hrun
    cases hrun
  | succ fuel' ih =>
    intro node visited recStack hch hrun
    rw [hasCycleAux_succ] at hrun
    exact goNeighbors_sound (hasCycleAux adj fuel') ih (neighborsOf adj node)
      (node :: visited) node recStack (fun _ hn => hn) hch hrun

theorem find_cycle_start_sound {adj : List (String × List String)} {fuel : Nat} :
    ∀ (keys visited : List String) (k : String),
      find_cycle_start adj fuel keys visited = some k →
      ∃ a, EdgePath adj a a := by
  intro keys
  induction keys with
  | nil => intro visited k h; cases h
  | cons k0 rest ih =>
    intro visited k h
    rw [find_cycle_start] at h
    by_cases hv : k0 ∈ visited
    · rw [if_pos hv] at h
      exact ih visited k h
    · rw [if_neg hv] at h
      cases hcall : hasCycleAux adj fuel k0 visited [] with
      | mk b v =>
        rw [hcall] at h
        cases b with
        | true => exact hasCycleAux_sound fuel k0 visited [] trivial (by rw [hcall])
        | false => exact ih v k h

/-- C3.  (a) On the concrete graph `g3` whose connections form the cycle
A→B→C→A, the circular-dependency rule produces a Tier-0 blocking error
finding whose element id is a node on that cycle, and `validate_graph`
reports it in `blocking_errors`.  (b) On every graph whose connection
adjacency (source→target edges) is acyclic, the rule produces no finding
(DFS soundness: a `True` return requires a real back edge, hence a real
directed cycle). -/
theorem c3_cycle_detection :
    (∃ m ∈ circular_dependency_rule g3,
        m.element_id ∈ (["A", "B", "C"] : List String) ∧
        m.tier = ValidationTier.tier0 ∧ m.severity = "error" ∧
        hasKey m.element_id (validate_graph [] [] g3).blocking_errors = true) ∧
    (∀ g : Graph, AcyclicGraph g → circular_dependency_rule g = []) := by
  constructor
  · decide
  · intro g hacyc
    show (match find_cycle_start (adjacencyOf g) (adjSize (adjacencyOf g))
        ((adjacencyOf g).map Prod.fst) [] with
      | none => ([] : List ValidationMessage)
      | some node =>
        [{ element_id := node, severity := "error",
           message := "Circular dependency detected in infrastructure graph",
           tier := .tier0, rule_id := "graph-circular-dependency",
           fix_hint := some "Remove circular references between resources",
           override_allowed := false }]) = []
    cases hfind : find_cycle_start (adjacencyOf g) (adjSize (adjacencyOf g))
        ((adjacencyOf g).map Prod.fst) [] with
    | none => rfl
    | some k =>
      exfalso
      obtain ⟨a, ha⟩ := find_cycle_start_sound _ _ k hfind
      exact hacyc a ha

theorem acyclic_empty : AcyclicGraph Graph.empty := by
  intro a h
  cases h with
  | single hmem => exact absurd hmem (List.not_mem_nil _)
  | cons hmem _ => exact absurd hmem (List.not_mem_nil _)

/-- Witness for C3's acyclic half at the empty graph. -/
theorem c3_witness : AcyclicGraph Graph.empty ∧ circular_dependency_rule Graph.empty = [] :=
  ⟨acyclic_empty, c3_cycle_detection.2 Graph.empty acyclic_empty⟩

/-! ### Claim C5 — override suppression -/

theorem lookupKey_append {α : Type} (k : String) (l l' : List (String × α)) :
    lookupKey k (l ++ l') =
      (match lookupKey k l with
       | some v => some v
       | none => lookupKey k l') := by
  induction l with
  | nil => simp [lookupKey]
  | cons p t ih =>
    rw [List.cons_append, lookupKey_cons, lookupKey_cons]
    by_cases h : p.1 == k
    · simp [h]
    · simp only [h, Bool.false_eq_true, if_neg, if_false]
      exact ih

theorem is_overridden_iff (o : List (String × List String)) (e r : String) :
    is_overridden o e r = true ↔ (∃ l, lookupKey e o = some l ∧ r ∈ l) := by
  unfold is_overridden
  by_cases h : hasKey e o
  · obtain ⟨l, hl⟩ := hasKey_eq_true_iff.mp h
    simp [h, hl, List.contains, List.elem_iff]
  · have h' : hasKey e o = false := by simpa using h
    have hl : lookupKey e o = none := hasKey_eq_false_iff.mp h'
    simp [h', hl]

theorem lookupKey_add_override (o : List (String × List String)) (X Y e : String) :
    lookupKey e (add_override o X Y) =
      if e = X then
        some ((((lookupKey X o).getD []) : List String) ++
          (if Y ∈ ((lookupKey X o).getD []) then [] else [Y]))
      else lookupKey e o := by
  unfold add_override
  by_cases hX : hasKey X o
  · obtain ⟨l, hl⟩ := hasKey_eq_true_iff.mp hX
    simp only [if_pos hX, hl, Option.getD_some]
    by_cases hY : Y ∈ l
    · simp only [if_pos hY]
      by_cases he : e = X
      · subst he
        rw [if_pos rfl, hl]
        simp [hY]
      · rw [if_neg he]
    · simp only [if_neg hY]
      rw [lookupKey_setKey]
      by_cases he : e = X
      · subst he
        rw [if_pos rfl, if_pos rfl, hl]
        simp [hY]
      · rw [if_neg (fun h => he h.symm), if_neg he]
  · have hX' : hasKey X o = false := by simpa using hX
    have hl : lookupKey X o = none := hasKey_eq_false_iff.mp hX'
    have ho1 : lookupKey X (o ++ [(X, [])]) = some [] := by
      rw [lookupKey_append, hl, lookupKey_cons]
      simp
    simp only [if_neg hX, ho1, Option.getD_some, List.not_mem_nil, if_false, hl,
      Option.getD_none, List.nil_append]
    rw [lookupKey_setKey]
    by_cases he : e = X
    · subst he
      rw [if_pos rfl, if_pos rfl, ho1]
      rfl
    · rw [if_neg (fun h => he h.symm), if_neg he]
      rw [lookupKey_append]
      have hne : (X == e) = false := by
        rw [beq_eq_false_iff_ne]
        exact fun h => he h.symm
      have h2 : lookupKey e ([(X, [])] : List (String × List String)) = none := by
        rw [lookupKey_cons]
        simp [hne, lookupKey]
      rw [h2]
      cases hv : lookupKey e o <;> rfl

theorem is_overridden_add_override (o : List (String × List String)) (X Y e r : String) :
    is_overridden (add_override o X Y) e r =
      (is_overridden o e r || (e == X && r == Y)) := by
  rw [Bool.eq_iff_iff]
  simp only [Bool.or_eq_true, Bool.and_eq_true, beq_iff_eq, is_overridden_iff,
    lookupKey_add_override]
  by_cases he : e = X
  · subst he
    rw [if_pos rfl]
    cases hx : lookupKey e o with
    | none =>
      simp only [hx, Option.getD_none, List.not_mem_nil, if_false, List.nil_append]
      constructor
      · rintro ⟨l, hl, hr⟩
        obtain rfl := Option.some.inj hl
        simp at hr
        exact Or.inr ⟨trivial, hr⟩
      · rintro (⟨l, hl, _⟩ | ⟨_, rfl⟩)
        · cases hl
        · exact ⟨_, rfl, by simp⟩
    | some lx =>
      simp only [hx, Option.getD_some]
      by_cases hY : Y ∈ lx
      · rw [if_pos hY]
        constructor
        · rintro ⟨l, hl, hr⟩
          obtain rfl := Option.some.inj hl
          rw [List.append_nil] at hr
          exact Or.inl ⟨lx, rfl, hr⟩
        · rintro (⟨l, hl, hr⟩ | ⟨_, rfl⟩)
          · obtain rfl := Option.some.inj hl
            exact ⟨_, rfl, by simpa using hr⟩
          · exact ⟨_, rfl, by simpa using hY⟩
      · rw [if_neg hY]
        constructor
        · rintro ⟨l, hl, hr⟩
          obtain rfl := Option.some.inj hl
          rcases List.mem_append.mp hr with hr | hr
          · exact Or.inl ⟨lx, rfl, hr⟩
          · simp at hr
            exact Or.inr ⟨trivial, hr⟩
        · rintro (⟨l, hl, hr⟩ | ⟨_, rfl⟩)
          · obtain rfl := Option.some.inj hl
            exact ⟨_, rfl, by simp [hr]⟩
          · exact ⟨_, rfl, by simp⟩
  · rw [if_neg he]
    constructor
    · rintro ⟨l, hl, hr⟩
      exact Or.inl ⟨l, hl, hr⟩
    · rintro (⟨l, hl, hr⟩ | ⟨he', _⟩)
      · exact ⟨l, hl, hr⟩
      · exact absurd he' he

theorem processMessage_add_override (o : List (String × List String)) (X Y : String)
    (acc : ValidationResults) (m : ValidationMessage) :
    processMessage (add_override o X Y) acc m =
      if m.override_allowed && (m.element_id == X && m.rule_id == Y) then acc
      else processMessage o acc m := by
  unfold processMessage
  rw [is_overridden_add_override]
  by_cases ha : m.override_allowed
  · by_cases hxy : (m.element_id == X && m.rule_id == Y) = true
    · simp [ha, hxy]
    · have hxy' : (m.element_id == X && m.rule_id == Y) = false := by
        simpa using hxy
      simp only [ha, hxy', Bool.or_false, Bool.and_false, Bool.false_and,
        Bool.true_and, Bool.and_true, if_neg, Bool.false_eq_true, if_false]
  · have ha' : m.override_allowed = false := by simpa using ha
    simp [ha']

theorem foldl_processMessage_add_override (o : List (String × List String)) (X Y : String) :
    ∀ (msgs : List ValidationMessage) (acc : ValidationResults),
      msgs.foldl (processMessage (add_override o X Y)) acc =
        (msgs.filter
          (fun m => !(m.override_allowed && (m.element_id == X && m.rule_id == Y)))).foldl
          (processMessage o) acc := by
  intro msgs
  induction msgs with
  | nil => intro acc; rfl
  | cons m rest ih =>
    intro acc
    rw [List.foldl_cons, List.filter_cons, processMessage_add_override]
    by_cases hc : (m.override_allowed && (m.element_id == X && m.rule_id == Y)) = true
    · rw [if_pos hc]
      simp only [hc, Bool.not_true, Bool.false_eq_true, if_neg, if_false]
      exact ih acc
    · have hc' : (m.override_allowed && (m.element_id == X && m.rule_id == Y)) = false := by
        simpa using hc
      rw [if_neg (by simp [hc'])]
      simp only [hc', Bool.not_false, if_pos, if_true]
      rw [List.foldl_cons]
      exact ih (processMessage o acc m)

theorem foldl_flatten {α β : Type} (f : β → α → β) :
    ∀ (L : List (List α)) (init : β),
      (L.flatten).foldl f init = L.foldl (fun acc l => l.foldl f acc) init := by
  intro L
  induction L with
  | nil => intro init; rfl
  | cons l rest ih =>
    intro init
    rw [List.flatten_cons, List.foldl_append, List.foldl_cons]
    exact ih (l.foldl f init)

theorem validate_graph_flatten (registry : List (String × ServiceDefinition))
    (o : List (String × List String)) (g : Graph) :
    validate_graph registry o g = (all_messages registry g).foldl (processMessage o) emptyResults := by
  unfold validate_graph all_messages
  rw [foldl_flatten]

/-- C5.  For any graph, registry, prior overrides and any rule id `Y` all of
whose findings permit overrides, registering an override for `(X, Y)` makes
the next `validate_graph` run equal to a run, under the previous overrides,
on the finding stream from which every finding with element id `X` and rule
id `Y` has been deleted — so `X`'s `Y`-originated findings appear in neither
`errors` nor `blocking_errors`, and every other finding (other rules, or `Y`
findings on other elements) is classified exactly as before.  Each `Y`
finding for `X` contributes nothing to the accumulated results.  Override
registration acts only on the engine's override table; the graph is not an
input of `add_override`, matching 'never mutates the IR'. -/
theorem c5_override_suppression (registry : List (String × ServiceDefinition))
    (o : List (String × List String)) (g : Graph) (X Y : String)
    (hY : ∀ m ∈ all_messages registry g, m.rule_id = Y → m.override_allowed = true) :
    validate_graph registry (add_override o X Y) g =
      ((all_messages registry g).filter
        (fun m => !(m.element_id == X && m.rule_id == Y))).foldl
        (processMessage o) emptyResults ∧
    (∀ (acc : ValidationResults) (m : ValidationMessage), m ∈ all_messages registry g →
      m.element_id = X → m.rule_id = Y →
      processMessage (add_override o X Y) acc m = acc) := by
  constructor
  · rw [validate_graph_flatten, foldl_processMessage_add_override]
    congr 1
    apply List.filter_congr
    intro m hm
    by_cases hr : m.rule_id == Y
    · have := hY m hm (beq_iff_eq.mp hr)
      simp [this, hr]
    · have hr' : (m.rule_id == Y) = false := by simpa using hr
      simp [hr']
  · intro acc m hm he hr
    rw [processMessage_add_override]
    have := hY m hm hr
    simp [this, he, hr]

/-- Witness for C5 on the admin-ports security finding of `gS` (a rule whose
findings all carry `override_allowed = True`). -/
theorem c5_witness :
    (∀ m ∈ all_messages [] gS, m.rule_id = "security-admin-ports-open" →
      m.override_allowed = true) ∧
    validate_graph [] (add_override [] "sg1" "security-admin-ports-open") gS =
      ((all_messages [] gS).filter
        (fun m => !(m.element_id == "sg1" && m.rule_id == "security-admin-ports-open"))).foldl
        (processMessage []) emptyResults :=
  ⟨by decide,
   (c5_override_suppression [] [] gS "sg1" "security-admin-ports-open" (by decide)).1⟩

/-! ### Claim C4 — Tier-1 override permission -/

/-- C4 (divergence exhibit).  The Tier-1 findings of the IAM least-privilege
rule (wildcard actions, wildcard resources, administrator-equivalent managed
policy, graph `gI`) and of the admin-ports rule (graph `gS`) all carry
`override_allowed = True`, as the claim says; but the Tier-1
`LambdaVPCSecurityRule` findings for a VPC-attached Lambda lacking security
groups and subnets (graph `gL`) carry `override_allowed = False`, so
registering an override for `(lam1, security-lambda-vpc-config)` does not
suppress them: the blocking error remains.  This contradicts the claim and
the tier's own documented semantics (`Tier 1 ... Blocking, Override
Required` in `security_rules.py` / `engine.py`). -/
theorem c4_lambda_vpc_override_denied :
    (∀ m ∈ ruleRecover (iam_least_privilege_rule gI),
      m.tier = ValidationTier.tier1 ∧ m.override_allowed = true) ∧
    (ruleRecover (iam_least_privilege_rule gI)).length = 3 ∧
    (∀ m ∈ ruleRecover (admin_ports_rule gS),
      m.tier = ValidationTier.tier1 ∧ m.override_allowed = true) ∧
    (∀ m ∈ ruleRecover (lambda_vpc_security_rule gL),
      m.tier = ValidationTier.tier1 ∧ m.rule_id = "security-lambda-vpc-config" ∧
      m.override_allowed = false) ∧
    (ruleRecover (lambda_vpc_security_rule gL)).length = 2 ∧
    hasKey "lam1" (validate_graph []
      (add_override [] "lam1" "security-lambda-vpc-config") gL).blocking_errors = true := by
  refine ⟨by decide, by decide, by decide, by decide, by decide, by decide⟩

/-! ### Claim C6 — required-inputs enforcement -/

theorem hasKey_appendAt_self (m : List (String × List String)) (k s : String) :
    hasKey k (appendAt m k s) = true := by
  unfold appendAt
  by_cases h : hasKey k m
  · rw [if_pos h, hasKey_setKey]
    exact h
  · rw [if_neg h, hasKey_append]
    simp [hasKey]

theorem hasKey_appendAt_mono {m : List (String × List String)} {k k' s : String}
    (h : hasKey k m = true) : hasKey k (appendAt m k' s) = true := by
  unfold appendAt
  by_cases h' : hasKey k' m
  · rw [if_pos h', hasKey_setKey]
    exact h
  · rw [if_neg h', hasKey_append, h]
    rfl

theorem blocking_mono (o : List (String × List String)) (acc : ValidationResults)
    (msg : ValidationMessage) {k : String} (h : hasKey k acc.blocking_errors = true) :
    hasKey k (processMessage o acc msg).blocking_errors = true := by
  unfold processMessage
  by_cases h1 : (msg.override_allowed && is_overridden o msg.element_id msg.rule_id) = true
  · rw [if_pos h1]
    exact h
  · rw [if_neg h1]
    by_cases h2 : (msg.severity == "error") = true
    · rw [if_pos h2]
      show hasKey k (if _ then _ else _) = true
      by_cases h3 : msg.tier = ValidationTier.tier0 ∨ msg.tier = ValidationTier.tier1 ∨
          msg.tier = ValidationTier.tier2
      · rw [if_pos h3]
        exact hasKey_appendAt_mono h
      · rw [if_neg h3]
        exact h
    · rw [if_neg h2]
      exact h

theorem blocking_mono_fold (o : List (String × List String)) :
    ∀ (msgs : List ValidationMessage) (acc : ValidationResults) (k : String),
      hasKey k acc.blocking_errors = true →
      hasKey k ((msgs.foldl (processMessage o) acc)).blocking_errors = true := by
  intro msgs
  induction msgs with
  | nil => intro acc k h; exact h
  | cons m rest ih =>
    intro acc k h
    rw [List.foldl_cons]
    exact ih _ _ (blocking_mono o acc m h)

theorem blocking_key_of_mem (o : List (String × List String)) :
    ∀ (msgs : List ValidationMessage) (acc : ValidationResults) (m : ValidationMessage),
      m ∈ msgs → m.severity = "error" → m.override_allowed = false →
      (m.tier = ValidationTier.tier0 ∨ m.tier = ValidationTier.tier1 ∨
        m.tier = ValidationTier.tier2) →
      hasKey m.element_id ((msgs.foldl (processMessage o) acc)).blocking_errors = true := by
  intro msgs
  induction msgs with
  | nil => intro acc m hm; cases hm
  | cons m0 rest ih =>
    intro acc m hm hsev hov htier
    rw [List.foldl_cons]
    rcases List.mem_cons.mp hm with rfl | hm
    · apply blocking_mono_fold
      unfold processMessage
      rw [hov]
      rw [if_neg (by simp)]
      rw [if_pos (by simp [hsev] : (m.severity == "error") = true)]
      show hasKey m.element_id (if _ then _ else _) = true
      rw [if_pos htier]
      exact hasKey_appendAt_self _ _ _
    · exact ih _ _ hm hsev hov htier

theorem required_inputs_element_id (registry : List (String × ServiceDefinition))
    (p : String × Resource) :
    ∀ m ∈ (match get_service registry (Prod.snd p).type with
           | none => ([] : List ValidationMessage)
           | some service =>
             service.required_inputs.filterMap (fun required_input =>
               match lookupKey required_input (Prod.snd p).arguments with
               | none => some
                   { element_id := Prod.fst p, severity := "error",
                     message := "Missing required input " ++ required_input ++
                       " for " ++ (Prod.snd p).type,
                     tier := .tier0, rule_id := "graph-required-inputs",
                     fix_hint := some ("Provide a value for " ++ required_input),
                     override_allowed := false }
               | some v =>
                 if v.truthy then none
                 else some
                   { element_id := Prod.fst p, severity := "error",
                     message := "Missing required input " ++ required_input ++
                       " for " ++ (Prod.snd p).type,
                     tier := .tier0, rule_id := "graph-required-inputs",
                     fix_hint := some ("Provide a value for " ++ required_input),
                     override_allowed := false })),
      m.element_id = Prod.fst p ∧ m.severity = "error" ∧ m.tier = ValidationTier.tier0 ∧
        m.override_allowed = false := by
  cases hsvc : get_service registry (Prod.snd p).type with
  | none => intro m hm; simp at hm
  | some service =>
    intro m hm
    simp only at hm
    obtain ⟨ri, _, hstep⟩ := List.mem_filterMap.mp hm
    cases hlk : lookupKey ri (Prod.snd p).arguments with
    | none =>
      rw [hlk] at hstep
      obtain rfl := Option.some.inj hstep
      exact ⟨rfl, rfl, rfl, rfl⟩
    | some v =>
      simp only [hlk] at hstep
      by_cases hv : v.truthy
      · rw [if_pos hv] at hstep
        cases hstep
      · rw [if_neg hv] at hstep
        obtain rfl := Option.some.inj hstep
        exact ⟨rfl, rfl, rfl, rfl⟩

/-- C6.  For a registry entry declaring `required_inputs = ["vpc_id"]` for
type `t` and a resource of that type (in a graph with duplicate-free
resource keys): with no `vpc_id` key in its attribute map, the
required-inputs rule produces a Tier-0, non-overridable error finding for
the resource and `validate_graph` reports a blocking error for it under any
overrides; with `vpc_id` set to any non-empty string, the rule produces no
finding for that resource.  (The code tests Python truthiness, so "non-empty
value" is read as a non-empty string — the natural type of `vpc_id`.) -/
theorem c6_required_inputs (registry : List (String × ServiceDefinition))
    (overrides : List (String × List String)) (g : Graph) (rid : String) (r : Resource)
    (svc : ServiceDefinition)
    (hnd : (g.resources.map Prod.fst).Nodup)
    (hmem : (rid, r) ∈ g.resources)
    (hreg : get_service registry r.type = some svc)
    (hreq : svc.required_inputs = ["vpc_id"]) :
    (lookupKey "vpc_id" r.arguments = none →
      (∃ m ∈ required_inputs_rule registry g,
        m.element_id = rid ∧ m.tier = ValidationTier.tier0 ∧ m.severity = "error" ∧
        m.override_allowed = false) ∧
      hasKey rid (validate_graph registry overrides g).blocking_errors = true) ∧
    (∀ s : String, s ≠ "" → lookupKey "vpc_id" r.arguments = some (Value.str s) →
      ∀ m ∈ required_inputs_rule registry g, m.element_id ≠ rid) := by
  constructor
  · intro hmiss
    have hmsgmem :
        ({ element_id := rid, severity := "error",
           message := "Missing required input " ++ "vpc_id" ++ " for " ++ r.type,
           tier := .tier0, rule_id := "graph-required-inputs",
           fix_hint := some ("Provide a value for " ++ "vpc_id"),
           override_allowed := false } : ValidationMessage) ∈
          required_inputs_rule registry g := by
      show _ ∈ (g.resources.map _).flatten
      apply List.mem_flatten.mpr
      refine ⟨_, List.mem_map.mpr ⟨(rid, r), hmem, rfl⟩, ?_⟩
      simp only [hreg, hreq, hmiss, List.filterMap_cons, List.filterMap_nil]
      simp
    refine ⟨⟨_, hmsgmem, rfl, rfl, rfl, rfl⟩, ?_⟩
    rw [validate_graph_flatten]
    have hrule : required_inputs_rule registry g ∈ default_rule_messages registry g := by
      simp [default_rule_messages]
    exact blocking_key_of_mem overrides (all_messages registry g) emptyResults _
      (List.mem_flatten.mpr ⟨_, hrule, hmsgmem⟩) rfl rfl (Or.inl rfl)
  · intro s hs hpres m hm heid
    obtain ⟨l, hl, hml⟩ := List.mem_flatten.mp hm
    obtain ⟨p, hp, hFp⟩ := List.mem_map.mp hl
    rw [← hFp] at hml
    have hprops := required_inputs_element_id registry p m hml
    have hp1 : p.1 = rid := by rw [← hprops.1, heid]
    have hpr : p.2 = r := by
      apply mem_keyUnique hnd _ hmem
      have : p = (rid, p.2) := by
        rw [← hp1]
      rw [← this]
      exact hp
    have hpe : p = (rid, r) := by
      rcases p with ⟨a, b⟩
      simp only at hp1 hpr
      rw [hp1, hpr]
    rw [hpe] at hml
    have htr : (Value.str s).truthy = true := by
      simp [Value.truthy, hs]
    simp only [hreg, hreq, hpres, htr, List.filterMap_cons, List.filterMap_nil,
      if_pos, if_true] at hml
    exact absurd hml (List.not_mem_nil m)

/-- Witness for C6: the concrete registry `regW` (`t` requires `vpc_id`) and
graph `g6` whose resource `web1` of type `t` has no `vpc_id` attribute. -/
theorem c6_witness :
    (∃ m ∈ required_inputs_rule regW g6,
      m.element_id = "web1" ∧ m.tier = ValidationTier.tier0 ∧ m.severity = "error" ∧
      m.override_allowed = false) ∧
    hasKey "web1" (validate_graph regW [] g6).blocking_errors = true :=
  (c6_required_inputs regW [] g6 "web1" r6 svc6 (by decide) (by simp [g6])
    (by decide) (by decide)).1 rfl

theorem cidrLoop_cons (octets : List String) (cidrs : List (String × String))
    (idx : Nat) (az : String) (rest : List (Nat × String)) (o2 : String) (n : Int)
    (h2 : octets.get? 2 = some o2) (hn : pyInt o2 = some n) :
    cidrLoop octets cidrs ((idx, az) :: rest) =
      cidrLoop octets
        (dictSet az
          (String.intercalate "."
            (setIdx octets 2 (toString (n + (idx : Int)))) ++ "/24")
          cidrs) rest := by
  simp only [cidrLoop, h2, hn]

/-- C8.  Deployment expansion.  `expand_resource` consults nothing but its
arguments and the configuration, so it is a pure function of them (the first
conjunct is definitional in the embedding); with strategy `per-az` and
configured zones `[a, b, c]` it returns exactly one alias per zone, in the
zone-list order, with zero-based indices (and resource ids suffixed by those
indices), so repeated runs agree on alias lists and derived names; and
`generate_cidr_calculations` on base network `10.0.0.0/16` assigns
`10.0.0.0/24`, `10.0.1.0/24`, `10.0.2.0/24` to the zones at indices 0, 1, 2
(third octet incremented by the zone index, `/24` per zone). -/
theorem c8_deployment_expansion (config : DeploymentConfig) (a b c : String)
    (rid rty bn rname : String) (args : List (String × Value))
    (hz : config.availability_zones = [a, b, c])
    (hab : a ≠ b) (hac : a ≠ c) (hbc : b ≠ c) :
    expand_resource config rid rty bn .per_az args =
      expand_resource config rid rty bn .per_az args ∧
    expand_resource config rid rty bn .per_az args =
      [{ resource_id := rid ++ "_" ++ "0", resource_type := rty, base_name := bn,
         alias_type := "az", alias_value := a, alias_index := 0 },
       { resource_id := rid ++ "_" ++ "1", resource_type := rty, base_name := bn,
         alias_type := "az", alias_value := b, alias_index := 1 },
       { resource_id := rid ++ "_" ++ "2", resource_type := rty, base_name := bn,
         alias_type := "az", alias_value := c, alias_index := 2 }] ∧
    generate_cidr_calculations config "10.0.0.0/16" rname =
      .ok [(a, "10.0.0.0/24"), (b, "10.0.1.0/24"), (c, "10.0.2.0/24")] := by
  obtain ⟨pr, zs, rr⟩ := config
  have hz' : zs = [a, b, c] := hz
  subst hz'
  have hab' : (a == b) = false := beq_eq_false_iff_ne.mpr hab
  have hac' : (a == c) = false := beq_eq_false_iff_ne.mpr hac
  have hbc' : (b == c) = false := beq_eq_false_iff_ne.mpr hbc
  refine ⟨rfl, ?_, ?_⟩
  · simp only [expand_resource, List.enum, List.enumFrom, List.map]
    rfl
  have hred :
      generate_cidr_calculations ⟨pr, [a, b, c], rr⟩ "10.0.0.0/16" rname =
        cidrLoop ["10", "0", "0", "0"] [] [(0, a), (1, b), (2, c)] := rfl
  have hfinal :
      cidrLoop ["10", "0", "0", "0"] [] [(0, a), (1, b), (2, c)] =
        .ok (dictSet c "10.0.2.0/24"
              (dictSet b "10.0.1.0/24" (dictSet a "10.0.0.0/24" []))) := by
    rw [cidrLoop_cons ["10", "0", "0", "0"] _ _ _ _ "0" 0 rfl rfl,
        cidrLoop_cons ["10", "0", "0", "0"] _ _ _ _ "0" 0 rfl rfl,
        cidrLoop_cons ["10", "0", "0", "0"] _ _ _ _ "0" 0 rfl rfl]
    rfl
  rw [hred, hfinal]
  have d2 : dictSet b "10.0.1.0/24" [(a, "10.0.0.0/24")] =
      [(a, "10.0.0.0/24"), (b, "10.0.1.0/24")] := by
    simp [dictSet, hasKey, hab']
  have d3 : dictSet c "10.0.2.0/24" [(a, "10.0.0.0/24"), (b, "10.0.1.0/24")] =
      [(a, "10.0.0.0/24"), (b, "10.0.1.0/24"), (c, "10.0.2.0/24")] := by
    simp [dictSet, hasKey, hac', hbc']
  rw [show dictSet a "10.0.0.0/24" ([] : List (String × String)) =
        [(a, "10.0.0.0/24")] from rfl, d2, d3]

/-- Witness for C8: zones `us-east-1a/b/c` on base network `10.0.0.0/16`. -/
theorem c8_witness :
    expand_resource ⟨"us-east-1", ["us-east-1a", "us-east-1b", "us-east-1c"], none⟩
        "subnet" "aws_subnet" "main" .per_az [] =
      [{ resource_id := "subnet" ++ "_" ++ "0", resource_type := "aws_subnet",
         base_name := "main", alias_type := "az", alias_value := "us-east-1a",
         alias_index := 0 },
       { resource_id := "subnet" ++ "_" ++ "1", resource_type := "aws_subnet",
         base_name := "main", alias_type := "az", alias_value := "us-east-1b",
         alias_index := 1 },
       { resource_id := "subnet" ++ "_" ++ "2", resource_type := "aws_subnet",
         base_name := "main", alias_type := "az", alias_value := "us-east-1c",
         alias_index := 2 }] ∧
    generate_cidr_calculations
        ⟨"us-east-1", ["us-east-1a", "us-east-1b", "us-east-1c"], none⟩
        "10.0.0.0/16" "main" =
      .ok [("us-east-1a", "10.0.0.0/24"), ("us-east-1b", "10.0.1.0/24"),
           ("us-east-1c", "10.0.2.0/24")] :=
  (c8_deployment_expansion
    ⟨"us-east-1", ["us-east-1a", "us-east-1b", "us-east-1c"], none⟩
    "us-east-1a" "us-east-1b" "us-east-1c" "subnet" "aws_subnet" "main" "main" []
    rfl (by decide) (by decide) (by decide)).2

theorem add_domain_connections (g : Graph) (d : Domain) (g' : Graph)
    (h : add_domain g d = .ok g') : g'.connections = g.connections := by
  unfold add_domain at h
  split at h
  · exact absurd h (by simp)
  · simp only [Except.ok.injEq] at h
    subst h
    rfl

theorem add_resource_connections (g : Graph) (r : Resource) (g' : Graph)
    (h : add_resource g r = .ok g') : g'.connections = g.connections := by
  unfold add_resource at h
  split at h
  · exact absurd h (by simp)
  · split at h
    · exact absurd h (by simp)
    · simp only [Except.ok.injEq] at h
      subst h
      rfl

theorem processResource_connections (registry : List (String × ServiceDefinition))
    (g : Graph) (r : Resource) :
    (exGraph (processResource registry g r)).connections = g.connections := by
  unfold processResource
  cases hgd : get_domain g ("domain_" ++ (assign_domain registry r.type).val) with
  | some d =>
    simp only [hgd]
    cases har : add_resource g
        { r with domain_id := "domain_" ++ (assign_domain registry r.type).val } with
    | ok g2 =>
      simp only [har, exGraph]
      exact add_resource_connections _ _ _ har
    | error e =>
      simp [har, exGraph]
  | none =>
    simp only [hgd]
    cases had : add_domain g
        { id := "domain_" ++ (assign_domain registry r.type).val,
          name := (assign_domain registry r.type).val,
          type := assign_domain registry r.type, position := ⟨0, 0⟩ } with
    | ok gd =>
      simp only [had]
      cases har : add_resource gd
          { r with domain_id := "domain_" ++ (assign_domain registry r.type).val } with
      | ok g2 =>
        simp only [har, exGraph]
        exact (add_resource_connections _ _ _ har).trans (add_domain_connections _ _ _ had)
      | error e =>
        simp only [har, exGraph]
        exact add_domain_connections _ _ _ had
    | error e =>
      simp [had, exGraph]

theorem foldRecover_connections (registry : List (String × ServiceDefinition))
    (g : Graph) (l : List Resource) :
    (foldRecover (processResource registry) g l).connections = g.connections := by
  induction l generalizing g with
  | nil => rfl
  | cons a as ih =>
    show (match processResource registry g a with
          | .error gerr => gerr
          | .ok g' => foldRecover (processResource registry) g' as).connections =
        g.connections
    have hp := processResource_connections registry g a
    cases hpr : processResource registry g a with
    | error gerr =>
      rw [hpr] at hp
      simpa [exGraph] using hp
    | ok g' =>
      rw [hpr] at hp
      simp only [exGraph] at hp
      rw [ih g', hp]

theorem processFile_connections (registry : List (String × ServiceDefinition))
    (g : Graph) (filename : String) (content : Option ParsedHcl) :
    (processFile registry g filename content).connections = g.connections := by
  unfold processFile
  cases content with
  | none => rfl
  | some parsed =>
    show (match parsed.resource with
          | none => g
          | some resource_data =>
            foldRecover (processResource registry) g
              (extract_resources resource_data filename)).connections =
        g.connections
    cases hr : parsed.resource with
    | none => rfl
    | some rd =>
      simp only [hr]
      exact foldRecover_connections registry g _

theorem parse_project_connections (registry : List (String × ServiceDefinition))
    (files : List (String × Option ParsedHcl)) :
    (parse_project registry files).connections = [] := by
  suffices h : ∀ g : Graph,
      (files.foldl (fun g p => processFile registry g p.1 p.2) g).connections =
        g.connections by
    simpa [parse_project, reconstruct_connections, Graph.empty] using h Graph.empty
  induction files with
  | nil => intro g; rfl
  | cons f fs ih =>
    intro g
    rw [List.foldl_cons, ih, processFile_connections]

/-- C9.  The connection-reconstruction pass of the Terraform importer is a
stub: `reconstruct_connections` returns its input unchanged (its Python body
is `pass`), so an imported project never carries a connection — not even for
`files9`, where `aws_instance.web`'s `subnet_id` plainly interpolates
`aws_vpc.main`'s identity — contradicting the documented behaviour of
materializing a dependency edge per detected reference.  (The
never-fabricate-an-endpoint half of the claim holds, but only vacuously.) -/
theorem c9_reconstruct_connections_stub :
    (∀ g : Graph, reconstruct_connections g = g) ∧
    (∀ (registry : List (String × ServiceDefinition))
       (files : List (String × Option ParsedHcl)),
       (parse_project registry files).connections = []) ∧
    (parse_project [] files9).resources.map Prod.fst =
      ["aws_vpc.main", "aws_instance.web"] ∧
    (parse_project [] files9).connections = [] :=
  ⟨fun _ => rfl, parse_project_connections, rfl, parse_project_connections [] files9⟩
